import Mathlib

/-!
# go-simple-server: the in-memory todo service of `cmd/main.go`

A shallow embedding of the handlers of `cmd/main.go` as pure functions on an
explicit store, followed by the properties of the service that hold on it.

* The package-level variables `todos` and `nextID` form the `Store`.  Every
  handler touches them inside one critical section of `mu`, so a handler is
  one transition of the store.
* `int` is the 64-bit Go integer: `nextID++` wraps around (`wrapInt`), and
  `strconv.Atoi` rejects what does not fit.
* `time.Now()` and the iteration order of `range todos` are chosen by the
  runtime; a `Call` carries both choices next to the request.
* `encoding/json` is a library: a request body is represented by what
  `Decode` makes of it for each of the two input structs.
-/

namespace TodoServer

/-! ## Data model -/

/-- An instant as returned by `time.Now()`. -/
abbrev Time := Int

/-- Record type `Todo` (main.go:13-18). -/
structure Todo where
  ID : Int
  Title : String
  Completed : Bool
  CreatedAt : Time
deriving DecidableEq, Repr

/-- Largest value of a Go `int` on a 64-bit target. -/
def maxInt : Int := 9223372036854775807

/-- Smallest value of a Go `int` on a 64-bit target. -/
def minInt : Int := -9223372036854775808

/-- Two's complement wrap-around of an integer into the range of `int`. -/
def wrapInt (x : Int) : Int :=
  (x + 9223372036854775808) % 18446744073709551616 - 9223372036854775808

/-- The package-level state (main.go:20-24): the map `todos`, as the list of
its entries, and the counter `nextID`. -/
structure Store where
  todos : List (Int × Todo)
  nextID : Int
deriving DecidableEq, Repr

/-- State at process start: `make(map[int]Todo)` and `nextID = 1`. -/
def initStore : Store := ⟨[], 1⟩

/-! ## Go map primitives on the entry list -/

/-- Map read `todos[k]` with the comma-ok result. -/
def mapGet : List (Int × Todo) → Int → Option Todo
  | [], _ => none
  | (k', v) :: rest, k => if k' = k then some v else mapGet rest k

/-- Map write `todos[k] = v`: replaces the entry of `k`, or adds one. -/
def mapSet : List (Int × Todo) → Int → Todo → List (Int × Todo)
  | [], k, v => [(k, v)]
  | (k', v') :: rest, k, v =>
    if k' = k then (k, v) :: rest else (k', v') :: mapSet rest k v

/-- Builtin `delete(todos, k)`. -/
def mapDelete (m : List (Int × Todo)) (k : Int) : List (Int × Todo) :=
  m.filter (fun e => decide (e.1 ≠ k))

/-- One traversal order of `n` entries, picked by `seed`: the entry at
position `seed % n` comes first, the rest follows by `seed / n`. -/
def rangeFrom {α : Type} : Nat → Nat → List α → List α
  | 0, _, _ => []
  | n + 1, seed, l =>
    match l.get? (seed % (n + 1)) with
    | none => []
    | some x =>
      x :: rangeFrom n (seed / (n + 1))
        (l.take (seed % (n + 1)) ++ l.drop (seed % (n + 1) + 1))

/-- The sequence of entries visited by `for _, t := range todos`; Go leaves
the order to the runtime, whose choice is `seed`.  Every order of the entries
is the traversal of some seed (`mapRange_onto`). -/
def mapRange (seed : Nat) (m : List (Int × Todo)) : List (Int × Todo) :=
  rangeFrom m.length seed m

/-! ## Library functions used by the handlers -/

/-- Go `unicode.IsSpace`. -/
def isSpace (c : Char) : Bool :=
  let n := c.toNat
  n = 9 || n = 10 || n = 11 || n = 12 || n = 13 || n = 32 || n = 133 || n = 160
    || n = 5760 || (8192 ≤ n && n ≤ 8202) || n = 8232 || n = 8233 || n = 8239
    || n = 8287 || n = 12288

/-- Go `strings.TrimSpace`: drops leading and trailing white space. -/
def trimSpace (s : String) : String :=
  ⟨((s.data.dropWhile isSpace).reverse.dropWhile isSpace).reverse⟩

/-- Go `strings.TrimPrefix`. -/
def trimPrefix (s pre : String) : String :=
  if pre.data.isPrefixOf s.data then ⟨s.data.drop pre.data.length⟩ else s

/-- Reads a run of decimal digits onto the accumulator. -/
def parseDigits : List Char → Nat → Option Nat
  | [], acc => some acc
  | c :: cs, acc =>
    if 48 ≤ c.toNat ∧ c.toNat ≤ 57 then parseDigits cs (acc * 10 + (c.toNat - 48))
    else none

/-- Go `strconv.Atoi`: an optional sign and at least one decimal digit, the
value within the range of `int`; `none` is the error result. -/
def atoi (s : String) : Option Int :=
  let body : Bool × List Char :=
    match s.data with
    | '-' :: ds => (true, ds)
    | '+' :: ds => (false, ds)
    | ds => (false, ds)
  if body.2 = [] then none
  else
    match parseDigits body.2 0 with
    | none => none
    | some n =>
      let v : Int := if body.1 then -(n : Int) else (n : Int)
      if minInt ≤ v ∧ v ≤ maxInt then some v else none

/-! ## Requests and responses -/

/-- The anonymous input struct of POST (main.go:57-59). -/
structure CreateInput where
  Title : String
deriving DecidableEq, Repr

/-- The anonymous input struct of PUT (main.go:112-115); `none` is a nil
pointer. -/
structure UpdateInput where
  Title : Option String
  Completed : Option Bool
deriving DecidableEq, Repr

/-- A request body, given by the result of `json.NewDecoder(r.Body).Decode`
into each input struct; `none` is a decode error. -/
structure Body where
  create : Option CreateInput
  update : Option UpdateInput
deriving DecidableEq, Repr

/-- The parts of `*http.Request` that the handlers read. -/
structure Request where
  Method : String
  Path : String
  Body : Body
deriving DecidableEq, Repr

/-- A Go slice value: `nil`, or a slice holding `elems`. -/
inductive Slice (α : Type) where
  | nil : Slice α
  | mk (elems : List α) : Slice α
deriving DecidableEq, Repr

/-- Builtin `append(list, t)`. -/
def Slice.append {α : Type} : Slice α → α → Slice α
  | Slice.nil, t => Slice.mk [t]
  | Slice.mk l, t => Slice.mk (l ++ [t])

/-- The values handed to `writeJSON`. -/
inductive Data where
  | status (value : String) : Data
  | todo (t : Todo) : Data
  | list (l : Slice Todo) : Data
deriving DecidableEq, Repr

/-- What a handler writes to the `http.ResponseWriter`. -/
inductive Response where
  | json (status : Nat) (data : Data) : Response
  | error (status : Nat) (msg : String) : Response
  | header (status : Nat) : Response
deriving DecidableEq, Repr

/-- `writeJSON` (main.go:141-145): status and JSON-encoded data. -/
def writeJSON (status : Nat) (data : Data) : Response := Response.json status data

/-- Library `http.Error`: a plain-text body with the message. -/
def httpError (msg : String) (code : Nat) : Response := Response.error code msg

/-- Library `http.NotFound`. -/
def httpNotFound : Response := httpError "404 page not found" 404

/-! ## Handlers -/

/-- `healthHandler` (main.go:37-41). -/
def healthHandler : Response := writeJSON 200 (Data.status "ok")

/-- `todosHandler` (main.go:43-87), with the instant `now` read by
`time.Now()` and the traversal choice `seed` of `range todos`. -/
def todosHandler (now : Time) (seed : Nat) (s : Store) (r : Request) : Store × Response :=
  if r.Method = "GET" then
    let list := (mapRange seed s.todos).foldl (fun acc e => acc.append e.2) (Slice.mk [])
    (s, writeJSON 200 (Data.list list))
  else if r.Method = "POST" then
    match r.Body.create with
    | none => (s, httpError "invalid json" 400)
    | some input =>
      if trimSpace input.Title = "" then (s, httpError "title required" 400)
      else
        let todo : Todo := ⟨s.nextID, input.Title, false, now⟩
        (⟨mapSet s.todos s.nextID todo, wrapInt (s.nextID + 1)⟩,
          writeJSON 201 (Data.todo todo))
  else (s, httpError "method not allowed" 405)

/-- The assignments of main.go:122-127 to the local copy of the record. -/
def applyPatch (todo : Todo) (input : UpdateInput) : Todo :=
  let todo := match input.Title with
    | some t => { todo with Title := t }
    | none => todo
  match input.Completed with
  | some c => { todo with Completed := c }
  | none => todo

/-- `todoByIDHandler` (main.go:89-139). -/
def todoByIDHandler (s : Store) (r : Request) : Store × Response :=
  let idStr := trimPrefix r.Path "/todos/"
  match atoi idStr with
  | none => (s, httpNotFound)
  | some id =>
    match mapGet s.todos id with
    | none => (s, httpNotFound)
    | some todo =>
      if r.Method = "GET" then (s, writeJSON 200 (Data.todo todo))
      else if r.Method = "PUT" then
        match r.Body.update with
        | none => (s, httpError "invalid json" 400)
        | some input =>
          let todo := applyPatch todo input
          (⟨mapSet s.todos id todo, s.nextID⟩, writeJSON 200 (Data.todo todo))
      else if r.Method = "DELETE" then
        (⟨mapDelete s.todos id, s.nextID⟩, Response.header 204)
      else (s, httpError "method not allowed" 405)

/-- One request as the server processes it: the request, the clock reading
and the map traversal choice of the runtime. -/
structure Call where
  req : Request
  now : Time
  seed : Nat
deriving DecidableEq, Repr

/-- The routes registered in `main` (main.go:27-31): `/health` and `/todos`
match exactly, `/todos/` matches every path below it, anything else is not
found.  The path is `r.URL.Path` in canonical form; `http.ServeMux` answers a
path with empty, `.` or `..` segments by a redirect before any handler runs,
and here such a path ends in a 404 that leaves the store alone as well. -/
def serve (s : Store) (c : Call) : Store × Response :=
  if c.req.Path = "/health" then (s, healthHandler)
  else if c.req.Path = "/todos" then todosHandler c.now c.seed s c.req
  else if "/todos/".data.isPrefixOf c.req.Path.data then todoByIDHandler s c.req
  else (s, httpNotFound)

/-- The store after a sequence of calls, processed one after the other. -/
def exec : Store → List Call → Store
  | s, [] => s
  | s, c :: cs => exec (serve s c).1 cs

/-- The responses to a sequence of calls, in order. -/
def responses : Store → List Call → List Response
  | _, [] => []
  | s, c :: cs => (serve s c).2 :: responses (serve s c).1 cs

/-! ## Observed histories -/

/-- The record carried by the 201 response of a successful collection-POST. -/
def createdOf : Response → Option Todo
  | Response.json code (Data.todo t) => if code = 201 then some t else none
  | _ => none

/-- The records returned by the successful collection-POSTs, in order. -/
def created (rs : List Response) : List Todo := rs.filterMap createdOf

/-- The calls of a run from `s`, each paired with its response. -/
def exchanges (s : Store) (cs : List Call) : List (Call × Response) :=
  cs.zip (responses s cs)

/-- Specification side, after the words of the list-completeness property:
the effect of one observed exchange on the records that were created and not
deleted.  A 201 adds the record it returns, the 200 of a PUT puts the
returned record in the place of the one with its id, the 204 of a DELETE
removes the record with the id named in the path. -/
def liveStep (live : List Todo) (c : Call) (r : Response) : List Todo :=
  match r with
  | Response.json code (Data.todo t) =>
    if code = 201 then live ++ [t]
    else if c.req.Method = "PUT" then live.map (fun x => if x.ID = t.ID then t else x)
    else live
  | Response.header _ =>
    live.filter (fun x => decide (atoi (trimPrefix c.req.Path "/todos/") ≠ some x.ID))
  | _ => live

/-- Specification side: the records created by a successful POST and not
since removed by a successful DELETE, each in its latest-updated form, after
the exchanges of a history that started with the records `live`. -/
def liveFrom (live : List Todo) : List (Call × Response) → List Todo
  | [] => live
  | (c, r) :: h => liveFrom (liveStep live c r) h

/-- Specification side: the live records of a history that started with no
record. -/
def liveRecords (h : List (Call × Response)) : List Todo := liveFrom [] h

/-- The list of records that `GET /todos` collects under traversal `seed`. -/
def listing (seed : Nat) (s : Store) : List Todo :=
  (mapRange seed s.todos).map Prod.snd

/-- The call is a `DELETE /todos/{id}` whose `{id}` parses to `n`. -/
def deletes (n : Int) (c : Call) : Bool :=
  decide (c.req.Method = "DELETE") && "/todos/".data.isPrefixOf c.req.Path.data
    && decide (atoi (trimPrefix c.req.Path "/todos/") = some n)

/-! ## Invariants of the store -/

/-- Every record is stored under its own id. -/
def KeyedByID (s : Store) : Prop := ∀ e ∈ s.todos, e.2.ID = e.1

/-- The store agrees with an observed history: its records, in entry order,
are the live records `live`; each is stored under its id; no key occurs
twice; every key is one of the first `j` values of the id counter; and
next-id is the value after `j` increments. -/
structure Tracks (s : Store) (live : List Todo) (j : Nat) : Prop where
  vals : s.todos.map Prod.snd = live
  keyed : KeyedByID s
  nodup : (s.todos.map Prod.fst).Nodup
  keys : ∀ e ∈ s.todos, ∃ i : Nat, 1 ≤ i ∧ i ≤ j ∧ e.1 = wrapInt i
  next : s.nextID = wrapInt (1 + j)

/-- No stored title is empty after trimming. -/
def TitlesPresent (s : Store) : Prop := ∀ e ∈ s.todos, trimSpace e.2.Title ≠ ""

/-- The call is a PUT whose decoded input sets a title that is empty after
trimming. -/
def blankPut (c : Call) : Bool :=
  decide (c.req.Method = "PUT") &&
    (match c.req.Body.update with
      | some input =>
        (match input.Title with
          | some t => decide (trimSpace t = "")
          | none => false)
      | none => false)

/-! ## Sample calls -/

/-- The call `POST /todos {"title": title}` at instant `now`. -/
def postCall (title : String) (now : Time) : Call :=
  ⟨⟨"POST", "/todos", ⟨some ⟨title⟩, some ⟨some title, none⟩⟩⟩, now, 0⟩

/-- The call `PUT /todos/{idStr}` with the decoded input `input`. -/
def putCall (idStr : String) (input : UpdateInput) : Call :=
  ⟨⟨"PUT", "/todos/" ++ idStr, ⟨none, some input⟩⟩, 0, 0⟩

/-- The call `GET path` with an empty body, which does not decode. -/
def getCall (path : String) (seed : Nat) : Call :=
  ⟨⟨"GET", path, ⟨none, none⟩⟩, 0, seed⟩

/-- The call `DELETE /todos/{idStr}` with an empty body. -/
def deleteCall (idStr : String) : Call :=
  ⟨⟨"DELETE", "/todos/" ++ idStr, ⟨none, none⟩⟩, 0, 0⟩

/-! ## Routing of item paths -/

theorem data_itemPath (idStr : String) :
    ("/todos/" ++ idStr).data = '/' :: 't' :: 'o' :: 'd' :: 'o' :: 's' :: '/' :: idStr.data := by
  simp [String.data_append]

theorem trimPrefix_itemPath (idStr : String) :
    trimPrefix ("/todos/" ++ idStr) "/todos/" = idStr := by
  unfold trimPrefix
  rw [data_itemPath]
  simp [List.isPrefixOf]

theorem serve_item (s : Store) (m idStr : String) (b : Body) (now : Time) (seed : Nat) :
    serve s ⟨⟨m, "/todos/" ++ idStr, b⟩, now, seed⟩
      = todoByIDHandler s ⟨m, "/todos/" ++ idStr, b⟩ := by
  have h1 : ("/todos/" ++ idStr) ≠ "/health" := by
    intro h
    have := congrArg String.data h
    rw [data_itemPath] at this
    simp at this
  have h2 : ("/todos/" ++ idStr) ≠ "/todos" := by
    intro h
    have := congrArg String.data h
    rw [data_itemPath] at this
    simp at this
  have h3 : "/todos/".data.isPrefixOf ("/todos/" ++ idStr).data = true := by
    rw [data_itemPath]
    simp [List.isPrefixOf]
  simp only [serve, h1, h2, h3, if_true, if_false]

theorem serve_collection (s : Store) (m : String) (b : Body) (now : Time) (seed : Nat) :
    serve s ⟨⟨m, "/todos", b⟩, now, seed⟩ = todosHandler now seed s ⟨m, "/todos", b⟩ := by
  have h1 : ("/todos" : String) ≠ "/health" := by decide
  simp only [serve, h1, if_true, if_false]

/-! ## The map primitives -/

theorem mapGet_mapSet_self (m : List (Int × Todo)) (k : Int) (v : Todo) :
    mapGet (mapSet m k v) k = some v := by
  induction m with
  | nil => simp [mapSet, mapGet]
  | cons e rest ih =>
    obtain ⟨k', v'⟩ := e
    by_cases h : k' = k
    · simp [mapSet, mapGet, h]
    · simp [mapSet, mapGet, h, ih]

theorem mapGet_mapSet_ne (m : List (Int × Todo)) (k k' : Int) (v : Todo) (hk : k' ≠ k) :
    mapGet (mapSet m k v) k' = mapGet m k' := by
  induction m with
  | nil => simp [mapSet, mapGet, Ne.symm hk]
  | cons e rest ih =>
    obtain ⟨k0, v0⟩ := e
    by_cases h : k0 = k
    · subst h
      simp [mapSet, mapGet, Ne.symm hk]
    · by_cases h' : k0 = k'
      · subst h'
        simp [mapSet, mapGet, h]
      · simp [mapSet, mapGet, h, h', ih]

theorem mapGet_mapDelete_self (m : List (Int × Todo)) (k : Int) :
    mapGet (mapDelete m k) k = none := by
  induction m with
  | nil => simp [mapDelete, mapGet]
  | cons e rest ih =>
    obtain ⟨k0, v0⟩ := e
    by_cases h : k0 = k
    · simpa [mapDelete, List.filter_cons, h] using ih
    · simpa [mapDelete, List.filter_cons, h, mapGet] using ih

theorem mapGet_mapDelete_ne (m : List (Int × Todo)) (k k' : Int) (hk : k' ≠ k) :
    mapGet (mapDelete m k) k' = mapGet m k' := by
  induction m with
  | nil => simp [mapDelete, mapGet]
  | cons e rest ih =>
    obtain ⟨k0, v0⟩ := e
    by_cases h : k0 = k
    · subst h
      simpa [mapDelete, List.filter_cons, mapGet, Ne.symm hk] using ih
    · by_cases h' : k0 = k'
      · subst h'
        simp [mapDelete, List.filter_cons, h, mapGet]
      · simpa [mapDelete, List.filter_cons, h, mapGet, h'] using ih

theorem mem_mapDelete (m : List (Int × Todo)) (k : Int) (e : Int × Todo) :
    e ∈ mapDelete m k ↔ e ∈ m ∧ e.1 ≠ k := by
  simp [mapDelete]

theorem mapGet_eq_none_iff (m : List (Int × Todo)) (k : Int) :
    mapGet m k = none ↔ ∀ e ∈ m, e.1 ≠ k := by
  induction m with
  | nil => simp [mapGet]
  | cons e rest ih =>
    obtain ⟨k0, v0⟩ := e
    by_cases h : k0 = k
    · simp [mapGet, h]
    · simp [mapGet, h, ih]

theorem mem_of_mapGet (m : List (Int × Todo)) (k : Int) (v : Todo)
    (h : mapGet m k = some v) : (k, v) ∈ m := by
  induction m with
  | nil => simp [mapGet] at h
  | cons e rest ih =>
    obtain ⟨k0, v0⟩ := e
    by_cases h' : k0 = k
    · subst h'
      simp [mapGet] at h
      simp [h]
    · simp [mapGet, h'] at h
      exact List.mem_cons_of_mem _ (ih h)

theorem mapSet_keys_of_present (m : List (Int × Todo)) (k : Int) (v v' : Todo)
    (h : mapGet m k = some v) : (mapSet m k v').map Prod.fst = m.map Prod.fst := by
  induction m with
  | nil => simp [mapGet] at h
  | cons e rest ih =>
    obtain ⟨k0, v0⟩ := e
    by_cases h' : k0 = k
    · simp [mapSet, h']
    · simp [mapGet, h'] at h
      simp [mapSet, h', ih h]

/-! ## Single requests -/

/-- C3: PUT /todos/{id} on a stored record answers 200 with the record whose
title and completed are the supplied values where present and the old ones
otherwise, id and created_at kept; the store then maps id to that record,
every other key and next-id are as before; a present value is taken as it
is, whatever it is. -/
theorem put_applies_patch (s : Store) (idStr : String) (id : Int) (rec : Todo) (b : Body)
    (input : UpdateInput) (now : Time) (seed : Nat)
    (hid : atoi idStr = some id) (hrec : mapGet s.todos id = some rec)
    (hdec : b.update = some input) :
    (serve s ⟨⟨"PUT", "/todos/" ++ idStr, b⟩, now, seed⟩).2
        = Response.json 200 (Data.todo
            ⟨rec.ID, input.Title.getD rec.Title, input.Completed.getD rec.Completed,
              rec.CreatedAt⟩) ∧
      mapGet (serve s ⟨⟨"PUT", "/todos/" ++ idStr, b⟩, now, seed⟩).1.todos id
        = some ⟨rec.ID, input.Title.getD rec.Title, input.Completed.getD rec.Completed,
            rec.CreatedAt⟩ ∧
      (∀ k, k ≠ id →
        mapGet (serve s ⟨⟨"PUT", "/todos/" ++ idStr, b⟩, now, seed⟩).1.todos k
          = mapGet s.todos k) ∧
      (serve s ⟨⟨"PUT", "/todos/" ++ idStr, b⟩, now, seed⟩).1.todos.map Prod.fst
        = s.todos.map Prod.fst ∧
      (serve s ⟨⟨"PUT", "/todos/" ++ idStr, b⟩, now, seed⟩).1.nextID = s.nextID ∧
      (input.Completed = none → input.Completed.getD rec.Completed = rec.Completed) ∧
      (input.Title = none → input.Title.getD rec.Title = rec.Title) ∧
      (∀ t, input.Title = some t → input.Title.getD rec.Title = t) ∧
      (∀ c, input.Completed = some c → input.Completed.getD rec.Completed = c) := by
  have hP : ("PUT" : String) ≠ "GET" := by decide
  have hpatch : applyPatch rec input
      = ⟨rec.ID, input.Title.getD rec.Title, input.Completed.getD rec.Completed,
          rec.CreatedAt⟩ := by
    obtain ⟨t, c⟩ := input
    cases t <;> cases c <;> rfl
  have hserve : serve s ⟨⟨"PUT", "/todos/" ++ idStr, b⟩, now, seed⟩
      = (⟨mapSet s.todos id (applyPatch rec input), s.nextID⟩,
          Response.json 200 (Data.todo (applyPatch rec input))) := by
    rw [serve_item]
    simp only [todoByIDHandler, trimPrefix_itemPath, hid, hrec, hdec, hP, if_true, if_false,
      writeJSON]
  rw [hserve, hpatch]
  refine ⟨rfl, mapGet_mapSet_self _ _ _, fun k hk => mapGet_mapSet_ne _ _ _ _ hk,
    mapSet_keys_of_present _ _ _ _ hrec, rfl, ?_, ?_, ?_, ?_⟩
  · intro h; simp [h]
  · intro h; simp [h]
  · intro t h; simp [h]
  · intro c h; simp [h]

/-- An instance of C3: a PUT that sets the empty title on record 1. -/
theorem put_applies_patch_witness :
    (serve ⟨[(1, ⟨1, "a", false, 7⟩)], 2⟩
        ⟨⟨"PUT", "/todos/" ++ "1", ⟨none, some ⟨some "", none⟩⟩⟩, 9, 0⟩).2
      = Response.json 200 (Data.todo ⟨1, "", false, 7⟩) :=
  (put_applies_patch ⟨[(1, ⟨1, "a", false, 7⟩)], 2⟩ "1" 1 ⟨1, "a", false, 7⟩
    ⟨none, some ⟨some "", none⟩⟩ ⟨some "", none⟩ 9 0 (by decide) (by decide) rfl).1

/-- C7: DELETE /todos/{id} on a stored id answers 204 without a body and
removes exactly that key (the other entries and next-id stay), so that a GET
of the id right after is not found; on an id that is not stored it answers
404 and changes nothing. -/
theorem delete_removes_key (s : Store) (idStr : String) (id : Int) (b : Body)
    (now : Time) (seed : Nat) (hid : atoi idStr = some id) :
    (∀ rec, mapGet s.todos id = some rec →
      (serve s ⟨⟨"DELETE", "/todos/" ++ idStr, b⟩, now, seed⟩).2 = Response.header 204 ∧
      mapGet (serve s ⟨⟨"DELETE", "/todos/" ++ idStr, b⟩, now, seed⟩).1.todos id = none ∧
      (∀ k, k ≠ id →
        mapGet (serve s ⟨⟨"DELETE", "/todos/" ++ idStr, b⟩, now, seed⟩).1.todos k
          = mapGet s.todos k) ∧
      (∀ e, e ∈ (serve s ⟨⟨"DELETE", "/todos/" ++ idStr, b⟩, now, seed⟩).1.todos
          ↔ e ∈ s.todos ∧ e.1 ≠ id) ∧
      (serve s ⟨⟨"DELETE", "/todos/" ++ idStr, b⟩, now, seed⟩).1.nextID = s.nextID ∧
      (∀ (idStr' : String) (b' : Body) (now' : Time) (seed' : Nat), atoi idStr' = some id →
        serve (serve s ⟨⟨"DELETE", "/todos/" ++ idStr, b⟩, now, seed⟩).1
            ⟨⟨"GET", "/todos/" ++ idStr', b'⟩, now', seed'⟩
          = ((serve s ⟨⟨"DELETE", "/todos/" ++ idStr, b⟩, now, seed⟩).1,
              Response.error 404 "404 page not found"))) ∧
    (mapGet s.todos id = none →
      serve s ⟨⟨"DELETE", "/todos/" ++ idStr, b⟩, now, seed⟩
        = (s, Response.error 404 "404 page not found")) := by
  have hD1 : ("DELETE" : String) ≠ "GET" := by decide
  have hD2 : ("DELETE" : String) ≠ "PUT" := by decide
  constructor
  · intro rec hrec
    have hserve : serve s ⟨⟨"DELETE", "/todos/" ++ idStr, b⟩, now, seed⟩
        = (⟨mapDelete s.todos id, s.nextID⟩, Response.header 204) := by
      rw [serve_item]
      simp only [todoByIDHandler, trimPrefix_itemPath, hid, hrec, hD1, hD2, if_true, if_false]
    rw [hserve]
    refine ⟨rfl, mapGet_mapDelete_self _ _, fun k hk => mapGet_mapDelete_ne _ _ _ hk,
      fun e => mem_mapDelete _ _ _, rfl, ?_⟩
    intro idStr' b' now' seed' hid'
    rw [serve_item]
    simp only [todoByIDHandler, trimPrefix_itemPath, hid', mapGet_mapDelete_self, httpNotFound,
      httpError]
  · intro hnone
    rw [serve_item]
    simp only [todoByIDHandler, trimPrefix_itemPath, hid, hnone, httpNotFound, httpError]

/-- An instance of C7, both halves, on the store that holds ids 1 and 2:
DELETE /todos/1 answers 204, leaves exactly the record of id 2 with next-id
still 3, and the GET /todos/1 that follows is not found; DELETE /todos/5, an
id that is not stored, answers 404 and changes nothing. -/
theorem delete_removes_key_witness :
    mapGet (⟨[(1, ⟨1, "a", false, 7⟩), (2, ⟨2, "b", true, 8⟩)], 3⟩ : Store).todos 1
        = some ⟨1, "a", false, 7⟩ ∧
      (serve ⟨[(1, ⟨1, "a", false, 7⟩), (2, ⟨2, "b", true, 8⟩)], 3⟩
          ⟨⟨"DELETE", "/todos/" ++ "1", ⟨none, none⟩⟩, 9, 0⟩).2 = Response.header 204 ∧
      mapGet (serve ⟨[(1, ⟨1, "a", false, 7⟩), (2, ⟨2, "b", true, 8⟩)], 3⟩
          ⟨⟨"DELETE", "/todos/" ++ "1", ⟨none, none⟩⟩, 9, 0⟩).1.todos 1 = none ∧
      mapGet (serve ⟨[(1, ⟨1, "a", false, 7⟩), (2, ⟨2, "b", true, 8⟩)], 3⟩
          ⟨⟨"DELETE", "/todos/" ++ "1", ⟨none, none⟩⟩, 9, 0⟩).1.todos 2
        = some ⟨2, "b", true, 8⟩ ∧
      (serve ⟨[(1, ⟨1, "a", false, 7⟩), (2, ⟨2, "b", true, 8⟩)], 3⟩
          ⟨⟨"DELETE", "/todos/" ++ "1", ⟨none, none⟩⟩, 9, 0⟩).1.nextID = 3 ∧
      serve (serve ⟨[(1, ⟨1, "a", false, 7⟩), (2, ⟨2, "b", true, 8⟩)], 3⟩
            ⟨⟨"DELETE", "/todos/" ++ "1", ⟨none, none⟩⟩, 9, 0⟩).1
          ⟨⟨"GET", "/todos/" ++ "1", ⟨none, none⟩⟩, 10, 0⟩
        = ((serve ⟨[(1, ⟨1, "a", false, 7⟩), (2, ⟨2, "b", true, 8⟩)], 3⟩
              ⟨⟨"DELETE", "/todos/" ++ "1", ⟨none, none⟩⟩, 9, 0⟩).1,
            Response.error 404 "404 page not found") ∧
      (serve ⟨[(1, ⟨1, "a", false, 7⟩), (2, ⟨2, "b", true, 8⟩)], 3⟩
          ⟨⟨"DELETE", "/todos/" ++ "1", ⟨none, none⟩⟩, 9, 0⟩).1
        = ⟨[(2, ⟨2, "b", true, 8⟩)], 3⟩ ∧
      serve ⟨[(1, ⟨1, "a", false, 7⟩), (2, ⟨2, "b", true, 8⟩)], 3⟩
          ⟨⟨"DELETE", "/todos/" ++ "5", ⟨none, none⟩⟩, 9, 0⟩
        = (⟨[(1, ⟨1, "a", false, 7⟩), (2, ⟨2, "b", true, 8⟩)], 3⟩,
            Response.error 404 "404 page not found") :=
  ⟨by decide,
    ((delete_removes_key ⟨[(1, ⟨1, "a", false, 7⟩), (2, ⟨2, "b", true, 8⟩)], 3⟩ "1" 1
      ⟨none, none⟩ 9 0 (by decide)).1 ⟨1, "a", false, 7⟩ (by decide)).1,
    ((delete_removes_key ⟨[(1, ⟨1, "a", false, 7⟩), (2, ⟨2, "b", true, 8⟩)], 3⟩ "1" 1
      ⟨none, none⟩ 9 0 (by decide)).1 ⟨1, "a", false, 7⟩ (by decide)).2.1,
    (((delete_removes_key ⟨[(1, ⟨1, "a", false, 7⟩), (2, ⟨2, "b", true, 8⟩)], 3⟩ "1" 1
      ⟨none, none⟩ 9 0 (by decide)).1 ⟨1, "a", false, 7⟩ (by decide)).2.2.1 2
        (by decide)).trans (by decide),
    ((delete_removes_key ⟨[(1, ⟨1, "a", false, 7⟩), (2, ⟨2, "b", true, 8⟩)], 3⟩ "1" 1
      ⟨none, none⟩ 9 0 (by decide)).1 ⟨1, "a", false, 7⟩ (by decide)).2.2.2.2.1,
    ((delete_removes_key ⟨[(1, ⟨1, "a", false, 7⟩), (2, ⟨2, "b", true, 8⟩)], 3⟩ "1" 1
      ⟨none, none⟩ 9 0 (by decide)).1 ⟨1, "a", false, 7⟩ (by decide)).2.2.2.2.2 "1"
        ⟨none, none⟩ 10 0 (by decide),
    by decide,
    (delete_removes_key ⟨[(1, ⟨1, "a", false, 7⟩), (2, ⟨2, "b", true, 8⟩)], 3⟩ "5" 5
      ⟨none, none⟩ 9 0 (by decide)).2 (by decide)⟩

/-- C8, as stated, fails: in the initial state PATCH /todos/1 names a base-10
integer id and a method other than GET, PUT, DELETE, and is answered 404 by
the lookup that precedes the method switch, not 405. -/
theorem method_not_allowed_counterexample :
    atoi "1" = some 1 ∧ "PATCH" ≠ "GET" ∧ "PATCH" ≠ "PUT" ∧ "PATCH" ≠ "DELETE" ∧
      serve initStore ⟨⟨"PATCH", "/todos/1", ⟨none, none⟩⟩, 0, 0⟩
        = (initStore, Response.error 404 "404 page not found") ∧
      (serve initStore ⟨⟨"PATCH", "/todos/1", ⟨none, none⟩⟩, 0, 0⟩).2
        ≠ Response.error 405 "method not allowed" := by
  decide

/-- C8, amended: a request to /todos whose method is neither GET nor POST,
and a request to /todos/{id} whose {id} parses to an id in the store and
whose method is none of GET, PUT, DELETE, is answered 405 with `method not
allowed` and changes nothing; when the id is not in the store the answer is
404, the method is not looked at, and nothing changes either. -/
theorem method_not_allowed (s : Store) (m idStr : String) (id : Int) (b : Body)
    (now : Time) (seed : Nat) (hid : atoi idStr = some id) :
    (m ≠ "GET" → m ≠ "POST" →
      serve s ⟨⟨m, "/todos", b⟩, now, seed⟩
        = (s, Response.error 405 "method not allowed")) ∧
    (m ≠ "GET" → m ≠ "PUT" → m ≠ "DELETE" → (∃ rec, mapGet s.todos id = some rec) →
      serve s ⟨⟨m, "/todos/" ++ idStr, b⟩, now, seed⟩
        = (s, Response.error 405 "method not allowed")) ∧
    (mapGet s.todos id = none →
      serve s ⟨⟨m, "/todos/" ++ idStr, b⟩, now, seed⟩
        = (s, Response.error 404 "404 page not found")) := by
  refine ⟨?_, ?_, ?_⟩
  · intro h1 h2
    rw [serve_collection]
    simp only [todosHandler, h1, h2, if_false, httpError]
  · rintro h1 h2 h3 ⟨rec, hrec⟩
    rw [serve_item]
    simp only [todoByIDHandler, trimPrefix_itemPath, hid, hrec, h1, h2, h3, if_false, httpError]
  · intro hnone
    rw [serve_item]
    simp only [todoByIDHandler, trimPrefix_itemPath, hid, hnone, httpNotFound, httpError]

/-- An instance of C8, amended: PATCH on a stored id. -/
theorem method_not_allowed_witness :
    serve ⟨[(1, ⟨1, "a", false, 7⟩)], 2⟩ ⟨⟨"PATCH", "/todos/" ++ "1", ⟨none, none⟩⟩, 9, 0⟩
      = (⟨[(1, ⟨1, "a", false, 7⟩)], 2⟩, Response.error 405 "method not allowed") :=
  (method_not_allowed ⟨[(1, ⟨1, "a", false, 7⟩)], 2⟩ "PATCH" "1" 1 ⟨none, none⟩ 9 0
    (by decide)).2.1 (by decide) (by decide) (by decide) ⟨_, rfl⟩

theorem trimSpace_eq_empty_iff (t : String) :
    trimSpace t = "" ↔ ∀ c ∈ t.data, isSpace c = true := by
  have hdrop : ∀ l : List Char, l.dropWhile isSpace = [] ↔ ∀ c ∈ l, isSpace c = true := by
    intro l
    simp [List.dropWhile_eq_nil_iff]
  have hback : ∀ l : List Char, (∀ c ∈ l.dropWhile isSpace, isSpace c = true) →
      l.dropWhile isSpace = [] := by
    intro l
    induction l with
    | nil => simp
    | cons a l ih =>
      by_cases ha : isSpace a = true
      · simpa [List.dropWhile_cons, ha] using ih
      · intro h
        have := h a (by simp [List.dropWhile_cons, ha])
        exact absurd this ha
  have hdata : trimSpace t = "" ↔
      ((t.data.dropWhile isSpace).reverse.dropWhile isSpace).reverse = [] := by
    unfold trimSpace
    constructor
    · intro h
      have := congrArg String.data h
      simpa using this
    · intro h
      rw [h]
  rw [hdata, List.reverse_eq_nil_iff, hdrop]
  constructor
  · intro h
    exact (hdrop _).1 (hback _ (fun c hc => h c (List.mem_reverse.2 hc)))
  · intro h c hc
    have hnil := (hdrop t.data).2 h
    rw [hnil] at hc
    simp at hc

/-- C6: POST /todos answers 400 `invalid json` exactly when the body does
not decode, and 400 `title required` exactly when it decodes to a title that
is empty after trimming (so also to the empty title of a missing field); both
leave the store and next-id as they were.  In every other case it answers 201
with the record stored under the old next-id, whose title is the supplied
string, untrimmed, and whose completed flag is false. -/
theorem post_validation (s : Store) (b : Body) (now : Time) (seed : Nat) :
    ((serve s ⟨⟨"POST", "/todos", b⟩, now, seed⟩).2 = Response.error 400 "invalid json"
        ↔ b.create = none) ∧
    ((serve s ⟨⟨"POST", "/todos", b⟩, now, seed⟩).2 = Response.error 400 "title required"
        ↔ ∃ input, b.create = some input ∧ trimSpace input.Title = "") ∧
    (b.create = some ⟨""⟩ →
      (serve s ⟨⟨"POST", "/todos", b⟩, now, seed⟩).2 = Response.error 400 "title required") ∧
    ((serve s ⟨⟨"POST", "/todos", b⟩, now, seed⟩).2 = Response.error 400 "invalid json" ∨
      (serve s ⟨⟨"POST", "/todos", b⟩, now, seed⟩).2 = Response.error 400 "title required" →
        (serve s ⟨⟨"POST", "/todos", b⟩, now, seed⟩).1 = s) ∧
    ((serve s ⟨⟨"POST", "/todos", b⟩, now, seed⟩).2 ≠ Response.error 400 "invalid json" →
      (serve s ⟨⟨"POST", "/todos", b⟩, now, seed⟩).2 ≠ Response.error 400 "title required" →
      ∃ input, b.create = some input ∧
        (serve s ⟨⟨"POST", "/todos", b⟩, now, seed⟩).2
          = Response.json 201 (Data.todo ⟨s.nextID, input.Title, false, now⟩) ∧
        mapGet (serve s ⟨⟨"POST", "/todos", b⟩, now, seed⟩).1.todos s.nextID
          = some ⟨s.nextID, input.Title, false, now⟩ ∧
        (∀ k, k ≠ s.nextID →
          mapGet (serve s ⟨⟨"POST", "/todos", b⟩, now, seed⟩).1.todos k = mapGet s.todos k) ∧
        (serve s ⟨⟨"POST", "/todos", b⟩, now, seed⟩).1.nextID = wrapInt (s.nextID + 1)) := by
  have hP : ("POST" : String) ≠ "GET" := by decide
  rw [serve_collection]
  cases hc : b.create with
  | none =>
    have hserve : todosHandler now seed s ⟨"POST", "/todos", b⟩
        = (s, Response.error 400 "invalid json") := by
      simp only [todosHandler, hP, hc, if_true, if_false, httpError]
    rw [hserve]
    simp
  | some input =>
    by_cases ht : trimSpace input.Title = ""
    · have hserve : todosHandler now seed s ⟨"POST", "/todos", b⟩
          = (s, Response.error 400 "title required") := by
        simp only [todosHandler, hP, hc, ht, if_true, if_false, httpError]
      rw [hserve]
      refine ⟨by simp, by simp [ht], fun _ => rfl, fun _ => rfl, fun _ h => absurd rfl h⟩
    · have hserve : todosHandler now seed s ⟨"POST", "/todos", b⟩
          = (⟨mapSet s.todos s.nextID ⟨s.nextID, input.Title, false, now⟩,
                wrapInt (s.nextID + 1)⟩,
              Response.json 201 (Data.todo ⟨s.nextID, input.Title, false, now⟩)) := by
        simp only [todosHandler, hP, hc, ht, if_true, if_false, writeJSON]
      rw [hserve]
      refine ⟨by simp, by simp [ht], ?_, by simp, fun _ _ => ⟨input, rfl, rfl,
        mapGet_mapSet_self _ _ _, fun k hk => mapGet_mapSet_ne _ _ _ _ hk, rfl⟩⟩
      intro h
      have h' : input = ⟨""⟩ := by simpa using h
      subst h'
      exact absurd (by decide) ht

/-! ## The four kinds of step -/

theorem serve_cases (s : Store) (c : Call) :
    ((serve s c).1 = s ∧ createdOf (serve s c).2 = none ∧
        (∀ code, (serve s c).2 ≠ Response.header code) ∧
        (∀ code t, (serve s c).2 = Response.json code (Data.todo t) → c.req.Method ≠ "PUT")) ∨
    (∃ input, c.req.Method = "POST" ∧ c.req.Path = "/todos" ∧
        c.req.Body.create = some input ∧ trimSpace input.Title ≠ "" ∧
        serve s c = (⟨mapSet s.todos s.nextID ⟨s.nextID, input.Title, false, c.now⟩,
                        wrapInt (s.nextID + 1)⟩,
                      Response.json 201 (Data.todo ⟨s.nextID, input.Title, false, c.now⟩))) ∨
    (∃ id rec input, c.req.Method = "PUT" ∧
        atoi (trimPrefix c.req.Path "/todos/") = some id ∧
        mapGet s.todos id = some rec ∧ c.req.Body.update = some input ∧
        serve s c = (⟨mapSet s.todos id (applyPatch rec input), s.nextID⟩,
                      Response.json 200 (Data.todo (applyPatch rec input)))) ∨
    (∃ id rec, c.req.Method = "DELETE" ∧
        "/todos/".data.isPrefixOf c.req.Path.data = true ∧
        atoi (trimPrefix c.req.Path "/todos/") = some id ∧
        mapGet s.todos id = some rec ∧
        serve s c = (⟨mapDelete s.todos id, s.nextID⟩, Response.header 204)) := by
  have e1 : (("/todos" : String) = "/health") = False := by decide
  have e2 : (("POST" : String) = "GET") = False := by decide
  have e3 : (("PUT" : String) = "GET") = False := by decide
  have e4 : (("DELETE" : String) = "GET") = False := by decide
  have e5 : (("DELETE" : String) = "PUT") = False := by decide
  by_cases h1 : c.req.Path = "/health"
  · have hs : serve s c = (s, healthHandler) := by
      simp only [serve, h1, if_true]
    rw [hs]
    left
    simp [healthHandler, writeJSON, createdOf]
  by_cases h2 : c.req.Path = "/todos"
  · by_cases hg : c.req.Method = "GET"
    · have hs : serve s c = (s, writeJSON 200 (Data.list
          ((mapRange c.seed s.todos).foldl (fun acc e => acc.append e.2) (Slice.mk [])))) := by
        simp only [serve, todosHandler, h1, h2, hg, if_true, if_false, e1, e2, e3, e4, e5]
      rw [hs]
      left
      simp [writeJSON, createdOf]
    by_cases hp : c.req.Method = "POST"
    · cases hc : c.req.Body.create with
      | none =>
        have hs : serve s c = (s, httpError "invalid json" 400) := by
          simp only [serve, todosHandler, h1, h2, hg, hp, hc, if_true, if_false, e1, e2, e3, e4, e5]
        rw [hs]
        left
        simp [httpError, createdOf]
      | some input =>
        by_cases ht : trimSpace input.Title = ""
        · have hs : serve s c = (s, httpError "title required" 400) := by
            simp only [serve, todosHandler, h1, h2, hg, hp, hc, ht, if_true, if_false, e1, e2, e3, e4, e5]
          rw [hs]
          left
          simp [httpError, createdOf]
        · right; left
          refine ⟨input, hp, h2, rfl, ht, ?_⟩
          simp only [serve, todosHandler, h1, h2, hg, hp, hc, ht, if_true, if_false, e1, e2, e3, e4, e5, writeJSON]
    · have hs : serve s c = (s, httpError "method not allowed" 405) := by
        simp only [serve, todosHandler, h1, h2, hg, hp, if_true, if_false, e1, e2, e3, e4, e5]
      rw [hs]
      left
      simp [httpError, createdOf]
  by_cases h3 : "/todos/".data.isPrefixOf c.req.Path.data = true
  · cases ha : atoi (trimPrefix c.req.Path "/todos/") with
    | none =>
      have hs : serve s c = (s, httpNotFound) := by
        simp only [serve, todoByIDHandler, h1, h2, h3, ha, if_true, if_false, e1, e2, e3, e4, e5]
      rw [hs]
      left
      simp [httpNotFound, httpError, createdOf]
    | some id =>
      cases hm : mapGet s.todos id with
      | none =>
        have hs : serve s c = (s, httpNotFound) := by
          simp only [serve, todoByIDHandler, h1, h2, h3, ha, hm, if_true, if_false, e1, e2, e3, e4, e5]
        rw [hs]
        left
        simp [httpNotFound, httpError, createdOf]
      | some rec =>
        by_cases hg : c.req.Method = "GET"
        · have hs : serve s c = (s, writeJSON 200 (Data.todo rec)) := by
            simp only [serve, todoByIDHandler, h1, h2, h3, ha, hm, hg, if_true, if_false, e1, e2, e3, e4, e5]
          rw [hs]
          left
          have hne : c.req.Method ≠ "PUT" := by
            rw [hg]
            decide
          simp [writeJSON, createdOf, hne]
        by_cases hp : c.req.Method = "PUT"
        · cases hu : c.req.Body.update with
          | none =>
            have hs : serve s c = (s, httpError "invalid json" 400) := by
              simp only [serve, todoByIDHandler, h1, h2, h3, ha, hm, hg, hp, hu, if_true,
                if_false, e1, e2, e3, e4, e5]
            rw [hs]
            left
            simp [httpError, createdOf]
          | some input =>
            right; right; left
            refine ⟨id, rec, input, hp, rfl, hm, rfl, ?_⟩
            simp only [serve, todoByIDHandler, h1, h2, h3, ha, hm, hg, hp, hu, if_true,
              if_false, e1, e2, e3, e4, e5, writeJSON]
        by_cases hd : c.req.Method = "DELETE"
        · right; right; right
          refine ⟨id, rec, hd, h3, rfl, hm, ?_⟩
          simp only [serve, todoByIDHandler, h1, h2, h3, ha, hm, hg, hp, hd, if_true, if_false, e1, e2, e3, e4, e5]
        · have hs : serve s c = (s, httpError "method not allowed" 405) := by
            simp only [serve, todoByIDHandler, h1, h2, h3, ha, hm, hg, hp, hd, if_true,
              if_false, e1, e2, e3, e4, e5]
          rw [hs]
          left
          simp [httpError, createdOf]
  · have hs : serve s c = (s, httpNotFound) := by
      simp [serve, h1, h2, h3]
    rw [hs]
    left
    simp [httpNotFound, httpError, createdOf]

/-! ## Runs -/

theorem exec_append (s : Store) (cs ds : List Call) :
    exec s (cs ++ ds) = exec (exec s cs) ds := by
  induction cs generalizing s with
  | nil => rfl
  | cons c cs ih => simp [exec, ih]

theorem responses_append (s : Store) (cs ds : List Call) :
    responses s (cs ++ ds) = responses s cs ++ responses (exec s cs) ds := by
  induction cs generalizing s with
  | nil => rfl
  | cons c cs ih => simp [exec, responses, ih]

theorem mem_mapSet (m : List (Int × Todo)) (k : Int) (v : Todo) (e : Int × Todo)
    (h : e ∈ mapSet m k v) : e ∈ m ∨ e = (k, v) := by
  induction m with
  | nil =>
    simp [mapSet] at h
    exact Or.inr h
  | cons e0 rest ih =>
    obtain ⟨k0, v0⟩ := e0
    by_cases h' : k0 = k
    · simp [mapSet, h'] at h
      rcases h with h | h
      · exact Or.inr h
      · exact Or.inl (List.mem_cons_of_mem _ h)
    · simp [mapSet, h'] at h
      rcases h with h | h
      · exact Or.inl (by simp [h])
      · rcases ih h with h | h
        · exact Or.inl (List.mem_cons_of_mem _ h)
        · exact Or.inr h

theorem applyPatch_ID (rec : Todo) (input : UpdateInput) : (applyPatch rec input).ID = rec.ID := by
  obtain ⟨t, c⟩ := input
  cases t <;> cases c <;> rfl

theorem applyPatch_CreatedAt (rec : Todo) (input : UpdateInput) :
    (applyPatch rec input).CreatedAt = rec.CreatedAt := by
  obtain ⟨t, c⟩ := input
  cases t <;> cases c <;> rfl

theorem keyedByID_serve (s : Store) (c : Call) (h : KeyedByID s) : KeyedByID (serve s c).1 := by
  rcases serve_cases s c with ⟨hs, -⟩ | ⟨input, -, -, -, -, hs⟩ | ⟨id, rec, input, -, -, hm, -, hs⟩ |
    ⟨id, rec, -, -, -, -, hs⟩
  · rw [hs]
    exact h
  · rw [hs]
    intro e he
    rcases mem_mapSet _ _ _ _ he with he | he
    · exact h e he
    · rw [he]
  · rw [hs]
    intro e he
    rcases mem_mapSet _ _ _ _ he with he | he
    · exact h e he
    · rw [he]
      simpa [applyPatch_ID] using h _ (mem_of_mapGet _ _ _ hm)
  · rw [hs]
    intro e he
    exact h e ((mem_mapDelete _ _ _).1 he).1

theorem keyedByID_exec (s : Store) (cs : List Call) (h : KeyedByID s) :
    KeyedByID (exec s cs) := by
  induction cs generalizing s with
  | nil => exact h
  | cons c cs ih => exact ih _ (keyedByID_serve s c h)

theorem keyedByID_init : KeyedByID initStore := by
  intro e he
  simp [initStore] at he

theorem present_serve (s : Store) (c : Call) (n : Int) (hd : deletes n c = false)
    (h : ∃ v, mapGet s.todos n = some v) : ∃ v, mapGet (serve s c).1.todos n = some v := by
  rcases serve_cases s c with ⟨hs, -⟩ | ⟨input, -, -, -, -, hs⟩ | ⟨id, rec, input, -, -, hm, -, hs⟩ |
    ⟨id, rec, hdel, hpre, hid, -, hs⟩
  · rw [hs]
    exact h
  · rw [hs]
    by_cases hn : n = s.nextID
    · exact ⟨_, by rw [hn]; exact mapGet_mapSet_self _ _ _⟩
    · obtain ⟨v, hv⟩ := h
      exact ⟨v, by simpa [mapGet_mapSet_ne _ _ _ _ hn] using hv⟩
  · rw [hs]
    by_cases hn : n = id
    · exact ⟨_, by rw [hn]; exact mapGet_mapSet_self _ _ _⟩
    · obtain ⟨v, hv⟩ := h
      exact ⟨v, by simpa [mapGet_mapSet_ne _ _ _ _ hn] using hv⟩
  · rw [hs]
    have hn : n ≠ id := by
      intro hn
      subst hn
      simp [deletes, hdel, hpre, hid] at hd
    obtain ⟨v, hv⟩ := h
    exact ⟨v, by simpa [mapGet_mapDelete_ne _ _ _ hn] using hv⟩

theorem present_exec (s : Store) (cs : List Call) (n : Int)
    (hd : ∀ d ∈ cs, deletes n d = false)
    (h : ∃ v, mapGet s.todos n = some v) : ∃ v, mapGet (exec s cs).todos n = some v := by
  induction cs generalizing s with
  | nil => exact h
  | cons c cs ih =>
    exact ih _ (fun d hd' => hd d (List.mem_cons_of_mem _ hd'))
      (present_serve s c n (hd c (List.mem_cons_self _ _)) h)

theorem created_stored (s : Store) (c : Call) (t : Todo)
    (h : (serve s c).2 = Response.json 201 (Data.todo t)) :
    t.ID = s.nextID ∧ t.CreatedAt = c.now ∧ mapGet (serve s c).1.todos t.ID = some t ∧
      (serve s c).1.nextID = wrapInt (s.nextID + 1) := by
  rcases serve_cases s c with ⟨-, hc, -⟩ | ⟨input, -, -, -, -, hs⟩ | ⟨id, rec, input, -, -, -, -, hs⟩ |
    ⟨id, rec, -, -, -, -, hs⟩
  · rw [h] at hc
    simp [createdOf] at hc
  · rw [hs] at h ⊢
    simp at h
    subst h
    exact ⟨rfl, rfl, mapGet_mapSet_self _ _ _, rfl⟩
  · rw [hs] at h
    simp at h
  · rw [hs] at h
    simp at h

/-- C5: in every state reached from the initial one each record is stored
under its own id; and once a POST has returned id n, a GET /todos/n answers
200 with a record of id n after any further requests among which there is no
DELETE /todos/n. -/
theorem id_stability :
    (∀ (cs : List Call) (e : Int × Todo), e ∈ (exec initStore cs).todos → e.2.ID = e.1) ∧
    (∀ (pre mid : List Call) (c : Call) (t : Todo) (idStr : String) (b : Body) (now : Time)
        (seed : Nat),
      (serve (exec initStore pre) c).2 = Response.json 201 (Data.todo t) →
      (∀ d ∈ mid, deletes t.ID d = false) →
      atoi idStr = some t.ID →
      ∃ t', serve (exec initStore (pre ++ c :: mid)) ⟨⟨"GET", "/todos/" ++ idStr, b⟩, now, seed⟩
            = (exec initStore (pre ++ c :: mid), Response.json 200 (Data.todo t')) ∧
          t'.ID = t.ID) := by
  constructor
  · intro cs e he
    exact keyedByID_exec initStore cs keyedByID_init e he
  · intro pre mid c t idStr b now seed hpost hmid hid
    have hrun : exec initStore (pre ++ c :: mid)
        = exec (serve (exec initStore pre) c).1 mid := by
      rw [exec_append]
      rfl
    have hpres : ∃ v, mapGet (exec initStore (pre ++ c :: mid)).todos t.ID = some v := by
      rw [hrun]
      exact present_exec _ mid t.ID hmid ⟨t, (created_stored _ c t hpost).2.2.1⟩
    obtain ⟨v, hv⟩ := hpres
    refine ⟨v, ?_, ?_⟩
    · rw [serve_item]
      simp only [todoByIDHandler, trimPrefix_itemPath, hid, hv, if_true, writeJSON]
    · exact keyedByID_exec initStore _ keyedByID_init _ (mem_of_mapGet _ _ _ hv)

/-- An instance of C5: id 1 is still served after a POST, a PUT and the
DELETE of id 2. -/
theorem id_stability_witness :
    ∃ t', serve (exec initStore ([] ++
            (⟨⟨"POST", "/todos", ⟨some ⟨"a"⟩, none⟩⟩, 3, 0⟩ : Call) ::
              [⟨⟨"POST", "/todos", ⟨some ⟨"b"⟩, none⟩⟩, 4, 0⟩,
                ⟨⟨"PUT", "/todos/1", ⟨none, some ⟨some "c", some true⟩⟩⟩, 5, 0⟩,
                ⟨⟨"DELETE", "/todos/2", ⟨none, none⟩⟩, 6, 0⟩]))
          ⟨⟨"GET", "/todos/" ++ "1", ⟨none, none⟩⟩, 7, 0⟩
        = (exec initStore ([] ++
            (⟨⟨"POST", "/todos", ⟨some ⟨"a"⟩, none⟩⟩, 3, 0⟩ : Call) ::
              [⟨⟨"POST", "/todos", ⟨some ⟨"b"⟩, none⟩⟩, 4, 0⟩,
                ⟨⟨"PUT", "/todos/1", ⟨none, some ⟨some "c", some true⟩⟩⟩, 5, 0⟩,
                ⟨⟨"DELETE", "/todos/2", ⟨none, none⟩⟩, 6, 0⟩]),
            Response.json 200 (Data.todo t')) ∧
        t'.ID = (⟨1, "a", false, 3⟩ : Todo).ID :=
  id_stability.2 [] _ _ ⟨1, "a", false, 3⟩ "1" ⟨none, none⟩ 7 0 (by decide) (by decide)
    (by decide)

/-! ## Titles -/

theorem titlesPresent_serve (s : Store) (c : Call) (hc : blankPut c = false)
    (h : TitlesPresent s) : TitlesPresent (serve s c).1 := by
  rcases serve_cases s c with ⟨hs, -⟩ | ⟨input, -, -, -, ht, hs⟩ |
    ⟨id, rec, input, hput, -, hm, hu, hs⟩ | ⟨id, rec, -, -, -, -, hs⟩
  · rw [hs]
    exact h
  · rw [hs]
    intro e he
    rcases mem_mapSet _ _ _ _ he with he | he
    · exact h e he
    · rw [he]
      exact ht
  · rw [hs]
    intro e he
    rcases mem_mapSet _ _ _ _ he with he | he
    · exact h e he
    · rw [he]
      have hrec := h _ (mem_of_mapGet _ _ _ hm)
      obtain ⟨t, cpl⟩ := input
      cases t with
      | none =>
        cases cpl <;> exact hrec
      | some t =>
        have ht : trimSpace t ≠ "" := by
          simpa [blankPut, hput, hu] using hc
        cases cpl <;> exact ht
  · rw [hs]
    intro e he
    exact h e ((mem_mapDelete _ _ _).1 he).1

/-- C9, as stated, fails: after POST /todos with title `a`, the request
PUT /todos/1 with the empty title is accepted and the store holds a record
whose title is empty. -/
theorem title_nonblank_counterexample :
    (exec initStore
        [⟨⟨"POST", "/todos", ⟨some ⟨"a"⟩, none⟩⟩, 3, 0⟩,
          ⟨⟨"PUT", "/todos/1", ⟨none, some ⟨some "", none⟩⟩⟩, 4, 0⟩]).todos
      = [(1, ⟨1, "", false, 3⟩)] ∧ trimSpace "" = "" := by
  decide

/-- C9, amended: in every state reached from the initial one by requests
among which no PUT supplies a title that is empty after trimming, the title
of every stored record is non-empty after trimming. -/
theorem title_nonblank (cs : List Call) (h : ∀ c ∈ cs, blankPut c = false) :
    ∀ e ∈ (exec initStore cs).todos, trimSpace e.2.Title ≠ "" := by
  have key : ∀ (cs : List Call) (s : Store), (∀ c ∈ cs, blankPut c = false) →
      TitlesPresent s → TitlesPresent (exec s cs) := by
    intro cs
    induction cs with
    | nil => intro s _ hs; exact hs
    | cons c cs ih =>
      intro s hcs hs
      exact ih _ (fun d hd => hcs d (List.mem_cons_of_mem _ hd))
        (titlesPresent_serve s c (hcs c (List.mem_cons_self _ _)) hs)
  exact key cs initStore h (by intro e he; simp [initStore] at he)

/-- An instance of C9, amended: a run with a rejected blank POST and two
PUTs. -/
theorem title_nonblank_witness :
    ((1, ⟨1, "b", true, 3⟩) : Int × Todo) ∈ (exec initStore
        [postCall " a " 3, postCall "  " 3, putCall "1" ⟨some "b", none⟩,
          putCall "1" ⟨none, some true⟩]).todos ∧
      trimSpace ((1, ⟨1, "b", true, 3⟩) : Int × Todo).2.Title ≠ "" :=
  ⟨by decide, title_nonblank
    [postCall " a " 3, postCall "  " 3, putCall "1" ⟨some "b", none⟩,
      putCall "1" ⟨none, some true⟩] (by decide) (1, ⟨1, "b", true, 3⟩) (by decide)⟩

/-! ## The id counter -/

theorem wrapInt_wrapInt_add (x y : Int) : wrapInt (wrapInt x + y) = wrapInt (x + y) := by
  unfold wrapInt
  omega

theorem wrapInt_of_range (x : Int) (h1 : minInt ≤ x) (h2 : x ≤ maxInt) : wrapInt x = x := by
  unfold wrapInt minInt maxInt at *
  omega

theorem wrapInt_idem (x : Int) : wrapInt (wrapInt x) = wrapInt x := by
  unfold wrapInt
  omega

theorem serve_nextID (s : Store) (c : Call) :
    (createdOf (serve s c).2 = none ∧ (serve s c).1.nextID = s.nextID) ∨
    (∃ t, createdOf (serve s c).2 = some t ∧ t.ID = s.nextID ∧
      (serve s c).1.nextID = wrapInt (s.nextID + 1)) := by
  rcases serve_cases s c with ⟨hs, hc, -⟩ | ⟨input, -, -, -, -, hs⟩ |
    ⟨id, rec, input, -, -, -, -, hs⟩ | ⟨id, rec, -, -, -, -, hs⟩
  · left
    exact ⟨hc, by rw [hs]⟩
  · right
    rw [hs]
    exact ⟨⟨s.nextID, input.Title, false, c.now⟩, by simp [createdOf], rfl, rfl⟩
  · left
    rw [hs]
    simp [createdOf]
  · left
    rw [hs]
    simp [createdOf]

theorem created_cons (s : Store) (c : Call) (cs : List Call) :
    created (responses s (c :: cs))
      = (createdOf (serve s c).2).toList ++ created (responses (serve s c).1 cs) := by
  cases h : createdOf (serve s c).2 <;> simp [created, responses, List.filterMap_cons, h]

theorem created_append (s : Store) (cs ds : List Call) :
    created (responses s (cs ++ ds))
      = created (responses s cs) ++ created (responses (exec s cs) ds) := by
  simp [created, responses_append, List.filterMap_append]

theorem run_ids (cs : List Call) : ∀ s : Store, wrapInt s.nextID = s.nextID →
    (exec s cs).nextID = wrapInt (s.nextID + (created (responses s cs)).length) ∧
    (created (responses s cs)).map Todo.ID
      = (List.range (created (responses s cs)).length).map
          (fun i : Nat => wrapInt (s.nextID + i)) := by
  induction cs with
  | nil =>
    intro s hr
    simp [exec, responses, created, hr]
  | cons c cs ih =>
    intro s hr
    rw [created_cons]
    rcases serve_nextID s c with ⟨hc, hn⟩ | ⟨t, hc, hid, hn⟩
    · have ih' := ih (serve s c).1 (by rw [hn]; exact hr)
      rw [hn] at ih'
      simpa [hc, exec] using ih'
    · have ih' := ih (serve s c).1 (by rw [hn]; exact wrapInt_idem _)
      rw [hn] at ih'
      obtain ⟨ih1, ih2⟩ := ih'
      constructor
      · simp only [exec, hc, Option.toList, List.singleton_append, List.length_cons]
        rw [ih1, wrapInt_wrapInt_add]
        congr 1
        push_cast
        ring
      · simp only [hc, Option.toList, List.singleton_append, List.length_cons, List.map_cons]
        rw [List.range_succ_eq_map, List.map_cons, List.map_map, ih2, hid]
        congr 1
        · simp [hr]
        · apply List.map_congr_left
          intro i _
          simp only [Function.comp, wrapInt_wrapInt_add]
          congr 1
          push_cast
          ring

theorem keys_serve (s : Store) (c : Call) (e : Int × Todo) (he : e ∈ (serve s c).1.todos) :
    (∃ e0 ∈ s.todos, e0.1 = e.1) ∨ ∃ t, createdOf (serve s c).2 = some t ∧ t.ID = e.1 := by
  rcases serve_cases s c with ⟨hs, -⟩ | ⟨input, -, -, -, -, hs⟩ |
    ⟨id, rec, input, -, -, hm, -, hs⟩ | ⟨id, rec, -, -, -, -, hs⟩
  · rw [hs] at he
    exact Or.inl ⟨e, he, rfl⟩
  · rw [hs] at he ⊢
    rcases mem_mapSet _ _ _ _ he with he | he
    · exact Or.inl ⟨e, he, rfl⟩
    · right
      exact ⟨⟨s.nextID, input.Title, false, c.now⟩, by simp [createdOf], by rw [he]⟩
  · rw [hs] at he
    rcases mem_mapSet _ _ _ _ he with he | he
    · exact Or.inl ⟨e, he, rfl⟩
    · exact Or.inl ⟨_, mem_of_mapGet _ _ _ hm, by rw [he]⟩
  · rw [hs] at he
    exact Or.inl ⟨e, ((mem_mapDelete _ _ _).1 he).1, rfl⟩

theorem keys_exec (cs : List Call) : ∀ (s : Store) (e : Int × Todo), e ∈ (exec s cs).todos →
    (∃ e0 ∈ s.todos, e0.1 = e.1) ∨ e.1 ∈ (created (responses s cs)).map Todo.ID := by
  induction cs with
  | nil =>
    intro s e he
    exact Or.inl ⟨e, he, rfl⟩
  | cons c cs ih =>
    intro s e he
    rw [created_cons]
    rcases ih (serve s c).1 e he with ⟨e0, he0, hk⟩ | hmem
    · rcases keys_serve s c e0 he0 with ⟨e1, he1, hk1⟩ | ⟨t, ht, hid⟩
      · exact Or.inl ⟨e1, he1, hk1.trans hk⟩
      · right
        simp [ht, hid, hk]
    · right
      simp only [List.map_append, List.mem_append]
      exact Or.inr hmem

theorem serve_postCall (s : Store) (title : String) (now : Time) (h : trimSpace title ≠ "") :
    serve s (postCall title now)
      = (⟨mapSet s.todos s.nextID ⟨s.nextID, title, false, now⟩, wrapInt (s.nextID + 1)⟩,
          Response.json 201 (Data.todo ⟨s.nextID, title, false, now⟩)) := by
  have hP : (("POST" : String) = "GET") = False := by decide
  unfold postCall
  rw [serve_collection]
  simp only [todosHandler, hP, h, if_true, if_false, writeJSON]

theorem created_replicate_post (title : String) (now : Time) (h : trimSpace title ≠ "")
    (n : Nat) : ∀ s : Store,
    (created (responses s (List.replicate n (postCall title now)))).length = n := by
  induction n with
  | zero =>
    intro s
    simp [responses, created]
  | succ n ih =>
    intro s
    rw [List.replicate_succ, created_cons, serve_postCall s title now h]
    simp [createdOf, ih]

theorem replicate_post_nextID (title : String) (now : Time) (h : trimSpace title ≠ "")
    (n : Nat) :
    (exec initStore (List.replicate n (postCall title now))).nextID = wrapInt (1 + n) := by
  have := (run_ids (List.replicate n (postCall title now)) initStore (by decide)).1
  rw [created_replicate_post title now h n] at this
  exact this

theorem replicate_post_ids (title : String) (now : Time) (h : trimSpace title ≠ "")
    (n i : Nat) (hi : i < n) :
    ((created (responses initStore (List.replicate n (postCall title now)))).map Todo.ID)[i]?
      = some (wrapInt (1 + i)) := by
  have := (run_ids (List.replicate n (postCall title now)) initStore (by decide)).2
  rw [created_replicate_post title now h n] at this
  rw [this, List.getElem?_map, List.getElem?_range hi]
  rfl

/-- C1, as stated, fails on the 64-bit counter: when 2^63 POSTs in a row
succeed, the last of them returns id -2^63, not 2^63; and next-id, which is
2^63 - 1 after 2^63 - 2 of them, is -2^63 after one more. -/
theorem ids_increasing_counterexample :
    ((created (responses initStore
        (List.replicate 9223372036854775808 (postCall "a" 0)))).map Todo.ID)[9223372036854775807]?
      = some (-9223372036854775808) ∧
    (exec initStore (List.replicate 9223372036854775806 (postCall "a" 0))).nextID
      = 9223372036854775807 ∧
    (exec initStore (List.replicate 9223372036854775807 (postCall "a" 0))).nextID
      = -9223372036854775808 := by
  refine ⟨?_, ?_, ?_⟩
  · rw [replicate_post_ids "a" 0 (by decide) _ _ (by norm_num)]
    norm_num [wrapInt]
  · rw [replicate_post_nextID "a" 0 (by decide)]
    norm_num [wrapInt]
  · rw [replicate_post_nextID "a" 0 (by decide)]
    norm_num [wrapInt]

/-- C1, amended: from the initial state, for every sequence of requests in
which fewer than 2^63 - 1 collection-POSTs succeed, the ids returned by the
successful POSTs are 1, 2, ..., in order; an id removed by a DELETE is not
returned by a later POST; and next-id is never smaller after more requests. -/
theorem ids_increasing (cs : List Call)
    (h : (created (responses initStore cs)).length < 9223372036854775807) :
    (created (responses initStore cs)).map Todo.ID
        = (List.range' 1 (created (responses initStore cs)).length).map Int.ofNat ∧
    (∀ (pre mid post : List Call) (d c : Call) (n : Int) (t : Todo),
      cs = pre ++ d :: (mid ++ c :: post) →
      deletes n d = true →
      (serve (exec initStore pre) d).2 = Response.header 204 →
      (serve (exec initStore (pre ++ d :: mid)) c).2 = Response.json 201 (Data.todo t) →
      t.ID ≠ n) ∧
    (∀ pre post : List Call, cs = pre ++ post →
      (exec initStore pre).nextID ≤ (exec initStore cs).nextID) := by
  have hinit : wrapInt initStore.nextID = initStore.nextID := by decide
  have hone : initStore.nextID = 1 := rfl
  refine ⟨?_, ?_, ?_⟩
  · rw [(run_ids cs initStore hinit).2, List.range'_eq_map_range, List.map_map]
    apply List.map_congr_left
    intro i hi
    have hi' : i < (created (responses initStore cs)).length := List.mem_range.1 hi
    simp only [Function.comp, hone]
    rw [wrapInt_of_range]
    · simp
    · unfold minInt; omega
    · unfold maxInt; omega
  · intro pre mid post d c n t hcs hdel hresp hpost
    -- the deleted id was stored, so an earlier POST returned it
    have hstored : ∃ rec, mapGet (exec initStore pre).todos n = some rec := by
      rcases serve_cases (exec initStore pre) d with ⟨-, -, hh, -⟩ | ⟨input, -, -, -, -, hs⟩ |
        ⟨id, rec, input, -, -, -, -, hs⟩ | ⟨id, rec, -, -, hid, hm, -⟩
      · exact absurd hresp (hh 204)
      · rw [hs] at hresp
        simp at hresp
      · rw [hs] at hresp
        simp at hresp
      · have : atoi (trimPrefix d.req.Path "/todos/") = some n := by
          simp [deletes] at hdel
          exact hdel.2
        rw [this] at hid
        cases hid
        exact ⟨rec, hm⟩
    obtain ⟨rec, hrec⟩ := hstored
    have hmem := keys_exec pre initStore _ (mem_of_mapGet _ _ _ hrec)
    have hn : n ∈ (created (responses initStore pre)).map Todo.ID := by
      rcases hmem with ⟨e0, he0, -⟩ | hmem
      · simp [initStore] at he0
      · exact hmem
    rw [(run_ids pre initStore hinit).2] at hn
    obtain ⟨i, hi, hin⟩ := List.mem_map.1 hn
    have hi' : i < (created (responses initStore pre)).length := List.mem_range.1 hi
    -- the later POST returns the value of next-id at its time
    have hst := created_stored _ c t hpost
    have hnext := (run_ids (pre ++ d :: mid) initStore hinit).1
    have hlen1 : (created (responses initStore pre)).length
        ≤ (created (responses initStore (pre ++ d :: mid))).length := by
      rw [created_append]
      simp
    have hlen2 : (created (responses initStore (pre ++ d :: mid))).length
        < (created (responses initStore cs)).length := by
      have hcs' : cs = (pre ++ d :: mid) ++ c :: post := by
        rw [hcs]
        simp
      rw [hcs', created_append initStore (pre ++ d :: mid) (c :: post), created_cons, hpost]
      simp [createdOf]
    rw [hst.1, hnext, ← hin, hone]
    unfold wrapInt
    omega
  · intro pre post hcs
    have h1 := (run_ids pre initStore hinit).1
    have h2 := (run_ids cs initStore hinit).1
    have hlen : (created (responses initStore pre)).length
        ≤ (created (responses initStore cs)).length := by
      rw [hcs, created_append]
      simp
    rw [h1, h2, hone]
    unfold wrapInt
    omega

/-- An instance of C1, amended: two successful POSTs around a DELETE, a GET
and a rejected POST return ids 1 and 2. -/
theorem ids_increasing_witness :
    (created (responses initStore
        [postCall "a" 1, deleteCall "1", getCall "/todos" 0, postCall " " 2,
          postCall "b" 3])).map Todo.ID = [1, 2] :=
  (ids_increasing
    [postCall "a" 1, deleteCall "1", getCall "/todos" 0, postCall " " 2, postCall "b" 3]
    (by decide)).1.trans (by decide)

/-! ## Creation instants -/

theorem nextID_in_range (cs : List Call) :
    minInt ≤ (exec initStore cs).nextID ∧ (exec initStore cs).nextID ≤ maxInt := by
  rw [(run_ids cs initStore (by decide)).1]
  unfold wrapInt minInt maxInt
  omega

theorem wrapInt_add_ne (n : Int) (k : Nat) (hk : k + 1 < 18446744073709551616) :
    n ≠ wrapInt (n + 1 + k) := by
  unfold wrapInt
  omega

theorem createdAt_exec (n : Int) (at0 : Time) (cs : List Call) : ∀ (s : Store) (j : Nat),
    s.nextID = wrapInt (n + 1 + j) →
    (∀ v, mapGet s.todos n = some v → v.CreatedAt = at0) →
    j + (created (responses s cs)).length < 18446744073709551616 →
    ∀ v, mapGet (exec s cs).todos n = some v → v.CreatedAt = at0 := by
  induction cs with
  | nil =>
    intro s j _ hv _
    exact hv
  | cons c cs ih =>
    intro s j hnext hv hfew
    rw [created_cons] at hfew
    rcases serve_cases s c with ⟨hs, hc, -⟩ | ⟨input, -, -, -, -, hs⟩ |
      ⟨id, rec, input, -, -, hm, -, hs⟩ | ⟨id, rec, -, -, -, -, hs⟩
    · rw [hc, hs] at hfew
      simp only [exec]
      rw [hs]
      exact ih s j hnext hv (by simpa using hfew)
    · simp only [exec]
      rw [hs] at hfew ⊢
      simp only [createdOf, if_true, Option.toList, List.singleton_append,
        List.length_cons] at hfew
      dsimp only
      have hne : n ≠ s.nextID := by
        rw [hnext]
        exact wrapInt_add_ne n j (by omega)
      refine ih _ (j + 1) ?_ ?_ (by omega)
      · show wrapInt (s.nextID + 1) = wrapInt (n + 1 + ((j + 1 : Nat) : Int))
        rw [hnext, wrapInt_wrapInt_add]
        congr 1
        push_cast
        ring
      · intro v hv'
        rw [mapGet_mapSet_ne _ _ _ _ hne] at hv'
        exact hv v hv'
    · simp only [exec]
      rw [hs] at hfew ⊢
      simp only [createdOf] at hfew
      refine ih _ j hnext ?_ (by simpa using hfew)
      intro v hv'
      by_cases hid : n = id
      · subst hid
        rw [mapGet_mapSet_self] at hv'
        cases hv'
        rw [applyPatch_CreatedAt]
        exact hv rec hm
      · rw [mapGet_mapSet_ne _ _ _ _ hid] at hv'
        exact hv v hv'
    · simp only [exec]
      rw [hs] at hfew ⊢
      simp only [createdOf] at hfew
      refine ih _ j hnext ?_ (by simpa using hfew)
      intro v hv'
      by_cases hid : n = id
      · subst hid
        rw [mapGet_mapDelete_self] at hv'
        cases hv'
      · rw [mapGet_mapDelete_ne _ _ _ hid] at hv'
        exact hv v hv'

/-- C4, amended: when a POST has returned a record with id n and instant c,
and fewer than 2^64 POSTs succeed after it, every later GET /todos/n that
answers 200 returns a record whose created_at is c, whatever the requests in
between. -/
theorem created_at_immutable (pre mid : List Call) (c : Call) (t t' : Todo) (idStr : String)
    (b : Body) (now : Time) (seed : Nat)
    (hpost : (serve (exec initStore pre) c).2 = Response.json 201 (Data.todo t))
    (hfew : (created (responses (serve (exec initStore pre) c).1 mid)).length
      < 18446744073709551616)
    (hid : atoi idStr = some t.ID)
    (hget : (serve (exec initStore (pre ++ c :: mid))
        ⟨⟨"GET", "/todos/" ++ idStr, b⟩, now, seed⟩).2 = Response.json 200 (Data.todo t')) :
    t'.CreatedAt = t.CreatedAt := by
  have hst := created_stored _ c t hpost
  have hrun : exec initStore (pre ++ c :: mid)
      = exec (serve (exec initStore pre) c).1 mid := by
    rw [exec_append]
    rfl
  have key := createdAt_exec t.ID t.CreatedAt mid
    (serve (exec initStore pre) c).1 0
    (by rw [hst.2.2.2, hst.1]; simp)
    (by
      intro v hv
      rw [hst.2.2.1] at hv
      cases hv
      rfl)
    (by simpa using hfew)
  rw [← hrun] at key
  rw [serve_item] at hget
  cases hm : mapGet (exec initStore (pre ++ c :: mid)).todos t.ID with
  | none =>
    simp [todoByIDHandler, trimPrefix_itemPath, hid, hm, httpNotFound, httpError] at hget
  | some v =>
    simp [todoByIDHandler, trimPrefix_itemPath, hid, hm, writeJSON] at hget
    rw [← hget]
    exact key v hm

/-- An instance of C4, amended: two PUTs and a POST after the creation. -/
theorem created_at_immutable_witness :
    (⟨1, "b", true, 5⟩ : Todo).CreatedAt = (⟨1, "a", false, 5⟩ : Todo).CreatedAt :=
  created_at_immutable [] [putCall "1" ⟨some "b", none⟩, postCall "c" 6,
      putCall "1" ⟨none, some true⟩]
    (postCall "a" 5) ⟨1, "a", false, 5⟩ ⟨1, "b", true, 5⟩ "1" ⟨none, none⟩ 9 0
    (by decide) (by decide) (by decide) (by decide)

theorem replicate_post_nextID_from (title : String) (now : Time) (h : trimSpace title ≠ "")
    (n : Nat) (s : Store) (hs : wrapInt s.nextID = s.nextID) :
    (exec s (List.replicate n (postCall title now))).nextID = wrapInt (s.nextID + n) := by
  have := (run_ids (List.replicate n (postCall title now)) s hs).1
  rw [created_replicate_post title now h n] at this
  exact this

theorem lookup_after_wrap (m n : Nat) (hm : m = n + 1) (hn : wrapInt (2 + n) = 1) :
    mapGet (exec initStore (postCall "a" 0 :: List.replicate m (postCall "a" 1))).todos 1
      = some ⟨1, "a", false, 1⟩ := by
  subst hm
  have ha : trimSpace "a" ≠ "" := by decide
  have h1 : (serve initStore (postCall "a" 0)).1.nextID = 2 := by decide
  have h2 : (exec (serve initStore (postCall "a" 0)).1
      (List.replicate n (postCall "a" 1))).nextID = 1 := by
    rw [replicate_post_nextID_from "a" 1 ha n _ (by rw [h1]; decide), h1]
    exact hn
  rw [List.replicate_succ']
  simp only [exec]
  rw [exec_append]
  simp only [exec]
  rw [serve_postCall _ "a" 1 ha, h2]
  exact mapGet_mapSet_self _ _ _

/-- C4, as stated, fails on the 64-bit counter: the first POST returns id 1
with created_at 0; after 2^64 further successful POSTs, made at instant 1,
GET /todos/1 answers 200 with a record whose created_at is 1. -/
theorem created_at_immutable_counterexample :
    (serve initStore (postCall "a" 0)).2 = Response.json 201 (Data.todo ⟨1, "a", false, 0⟩) ∧
    (serve (exec initStore
        (postCall "a" 0 :: List.replicate 18446744073709551616 (postCall "a" 1)))
      (getCall "/todos/1" 0)).2 = Response.json 200 (Data.todo ⟨1, "a", false, 1⟩) := by
  have hget : ∀ s : Store, mapGet s.todos 1 = some ⟨1, "a", false, 1⟩ →
      (serve s (getCall "/todos/1" 0)).2 = Response.json 200 (Data.todo ⟨1, "a", false, 1⟩) := by
    intro s hl
    have hp : getCall "/todos/1" 0 = ⟨⟨"GET", "/todos/" ++ "1", ⟨none, none⟩⟩, 0, 0⟩ := by
      decide
    have ha : atoi "1" = some 1 := by decide
    rw [hp, serve_item]
    simp only [todoByIDHandler, trimPrefix_itemPath, ha, hl, if_true, writeJSON]
  exact ⟨by decide, hget _ (lookup_after_wrap 18446744073709551616 18446744073709551615
    (by norm_num) (by norm_num [wrapInt]))⟩

/-! ## The listing -/

theorem rangeFrom_perm {α : Type} (n : Nat) : ∀ (seed : Nat) (l : List α), l.length = n →
    (rangeFrom n seed l).Perm l := by
  induction n with
  | zero =>
    intro seed l hl
    have : l = [] := List.length_eq_zero.1 hl
    subst this
    exact List.Perm.refl _
  | succ n ih =>
    intro seed l hl
    have hlt : seed % (n + 1) < l.length := by
      rw [hl]
      exact Nat.mod_lt _ (Nat.succ_pos n)
    have hget : l.get? (seed % (n + 1)) = some (l.get ⟨seed % (n + 1), hlt⟩) :=
      List.get?_eq_get hlt
    have hsplit : l = l.take (seed % (n + 1))
        ++ l.get ⟨seed % (n + 1), hlt⟩ :: l.drop (seed % (n + 1) + 1) := by
      have h1 := List.take_append_drop (seed % (n + 1)) l
      have h2 : l.drop (seed % (n + 1))
          = l.get ⟨seed % (n + 1), hlt⟩ :: l.drop (seed % (n + 1) + 1) := by
        simp
      rw [h2] at h1
      exact h1.symm
    have hlen : (l.take (seed % (n + 1)) ++ l.drop (seed % (n + 1) + 1)).length = n := by
      simp only [List.length_append, List.length_take, List.length_drop]
      omega
    simp only [rangeFrom, hget]
    have hrec := ih (seed / (n + 1)) _ hlen
    refine (List.Perm.cons _ hrec).trans ?_
    conv_rhs => rw [hsplit]
    exact List.perm_middle.symm

theorem rangeFrom_onto {α : Type} (n : Nat) : ∀ (l l' : List α), l.length = n → l'.Perm l →
    ∃ seed, rangeFrom n seed l = l' := by
  induction n with
  | zero =>
    intro l l' hl hp
    have : l = [] := List.length_eq_zero.1 hl
    subst this
    exact ⟨0, by simp [rangeFrom, List.Perm.eq_nil hp]⟩
  | succ n ih =>
    intro l l' hl hp
    cases l' with
    | nil =>
      have := hp.length_eq
      simp [hl] at this
    | cons x t =>
      have hx : x ∈ l := hp.subset (List.mem_cons_self _ _)
      obtain ⟨i, hi, hxi⟩ := List.getElem_of_mem hx
      have hsplit : l = l.take i ++ x :: l.drop (i + 1) := by
        have h1 := List.take_append_drop i l
        have h2 : l.drop i = l[i] :: l.drop (i + 1) := by simp
        rw [h2, hxi] at h1
        exact h1.symm
      have hlen : (l.take i ++ l.drop (i + 1)).length = n := by
        simp only [List.length_append, List.length_take, List.length_drop]
        omega
      have hperm : t.Perm (l.take i ++ l.drop (i + 1)) := by
        have h3 : (x :: t).Perm (x :: (l.take i ++ l.drop (i + 1))) := by
          refine hp.trans ?_
          conv_lhs => rw [hsplit]
          exact List.perm_middle
        exact h3.cons_inv
      obtain ⟨seed', hs⟩ := ih _ t hlen hperm
      have hin : i < n + 1 := by omega
      refine ⟨i + (n + 1) * seed', ?_⟩
      have hmod : (i + (n + 1) * seed') % (n + 1) = i := by
        rw [Nat.add_mul_mod_self_left]
        exact Nat.mod_eq_of_lt hin
      have hdiv : (i + (n + 1) * seed') / (n + 1) = seed' := by
        rw [Nat.add_mul_div_left _ _ (Nat.succ_pos n), Nat.div_eq_of_lt hin, Nat.zero_add]
      have hget : l.get? i = some x := by
        rw [List.get?_eq_getElem?, List.getElem?_eq_getElem hi, hxi]
      simp only [rangeFrom, hmod, hdiv, hget, hs]
theorem mapRange_onto (m order : List (Int × Todo)) (h : order.Perm m) :
    ∃ seed, mapRange seed m = order :=
  rangeFrom_onto m.length m order rfl h

theorem listing_perm (seed : Nat) (s : Store) :
    (listing seed s).Perm (s.todos.map Prod.snd) :=
  (rangeFrom_perm s.todos.length seed s.todos rfl).map Prod.snd

theorem foldl_append_slice (l : List (Int × Todo)) : ∀ acc : List Todo,
    l.foldl (fun a e => a.append e.2) (Slice.mk acc) = Slice.mk (acc ++ l.map Prod.snd) := by
  induction l with
  | nil =>
    intro acc
    simp
  | cons e l ih =>
    intro acc
    rw [List.foldl_cons]
    have hstep : (Slice.mk acc).append e.2 = Slice.mk (acc ++ [e.2]) := rfl
    rw [hstep, ih]
    simp

theorem serve_list (s : Store) (b : Body) (now : Time) (seed : Nat) :
    serve s ⟨⟨"GET", "/todos", b⟩, now, seed⟩
      = (s, Response.json 200 (Data.list (Slice.mk (listing seed s)))) := by
  rw [serve_collection]
  simp only [todosHandler, if_true, writeJSON, foldl_append_slice, List.nil_append, listing]

theorem mapSet_fresh (m : List (Int × Todo)) (k : Int) (v : Todo) (h : mapGet m k = none) :
    mapSet m k v = m ++ [(k, v)] := by
  induction m with
  | nil => rfl
  | cons e rest ih =>
    obtain ⟨k0, v0⟩ := e
    by_cases h' : k0 = k
    · simp [mapGet, h'] at h
    · simp [mapGet, h'] at h
      simp [mapSet, h', ih h]

theorem nodupKeys_mapSet (m : List (Int × Todo)) (k : Int) (v : Todo)
    (h : (m.map Prod.fst).Nodup) : ((mapSet m k v).map Prod.fst).Nodup := by
  cases hg : mapGet m k with
  | none =>
    rw [mapSet_fresh m k v hg, List.map_append, List.nodup_append]
    refine ⟨h, by simp, ?_⟩
    intro a ha hb
    simp only [List.map_cons, List.map_nil, List.mem_singleton] at hb
    subst hb
    obtain ⟨e, he, hk⟩ := List.mem_map.1 ha
    exact (mapGet_eq_none_iff m a).1 hg e he hk
  | some v' =>
    rw [mapSet_keys_of_present m k v' v hg]
    exact h

theorem nodupKeys_mapDelete (m : List (Int × Todo)) (k : Int)
    (h : (m.map Prod.fst).Nodup) : ((mapDelete m k).map Prod.fst).Nodup :=
  h.sublist (List.Sublist.map _ (List.filter_sublist _))

theorem nodupKeys_serve (s : Store) (c : Call) (h : (s.todos.map Prod.fst).Nodup) :
    ((serve s c).1.todos.map Prod.fst).Nodup := by
  rcases serve_cases s c with ⟨hs, -⟩ | ⟨input, -, -, -, -, hs⟩ |
    ⟨id, rec, input, -, -, -, -, hs⟩ | ⟨id, rec, -, -, -, -, hs⟩
  · rw [hs]
    exact h
  · rw [hs]
    exact nodupKeys_mapSet _ _ _ h
  · rw [hs]
    exact nodupKeys_mapSet _ _ _ h
  · rw [hs]
    exact nodupKeys_mapDelete _ _ h

theorem nodupKeys_exec (cs : List Call) : ∀ s : Store, (s.todos.map Prod.fst).Nodup →
    ((exec s cs).todos.map Prod.fst).Nodup := by
  induction cs with
  | nil =>
    intro s h
    exact h
  | cons c cs ih =>
    intro s h
    exact ih _ (nodupKeys_serve s c h)

theorem exchanges_cons (s : Store) (c : Call) (cs : List Call) :
    exchanges s (c :: cs) = (c, (serve s c).2) :: exchanges (serve s c).1 cs := rfl

theorem mapSet_values (m : List (Int × Todo)) (id : Int) (rec t : Todo)
    (hk : ∀ e ∈ m, e.2.ID = e.1) (hn : (m.map Prod.fst).Nodup)
    (hm : mapGet m id = some rec) :
    (mapSet m id t).map Prod.snd
      = (m.map Prod.snd).map (fun x => if x.ID = id then t else x) := by
  induction m with
  | nil => simp [mapGet] at hm
  | cons e rest ih =>
    obtain ⟨k0, v0⟩ := e
    have hv0 : v0.ID = k0 := hk (k0, v0) (List.mem_cons_self _ _)
    have hrest : ∀ e ∈ rest, e.2.ID = e.1 := fun e he => hk e (List.mem_cons_of_mem _ he)
    rw [List.map_cons, List.nodup_cons] at hn
    by_cases h' : k0 = id
    · subst h'
      have hid : ∀ x ∈ rest.map Prod.snd, (if x.ID = k0 then t else x) = x := by
        intro x hx
        obtain ⟨e, he, hex⟩ := List.mem_map.1 hx
        have hne : x.ID ≠ k0 := by
          intro hxk
          apply hn.1
          have hmem : e.1 ∈ rest.map Prod.fst := List.mem_map_of_mem _ he
          rw [← hrest e he, hex, hxk] at hmem
          exact hmem
        simp [hne]
      simp only [mapSet, if_true, List.map_cons, hv0]
      congr 1
      have hmap : (rest.map Prod.snd).map (fun x => if x.ID = k0 then t else x)
          = (rest.map Prod.snd).map (fun x => x) := List.map_congr_left hid
      rw [hmap, List.map_id']
    · simp only [mapGet, h', if_false] at hm
      have hne : v0.ID ≠ id := by rw [hv0]; exact h'
      simp only [mapSet, h', if_false, List.map_cons, hne]
      congr 1
      exact ih hrest hn.2 hm

theorem mapDelete_values (m : List (Int × Todo)) (id : Int) (hk : ∀ e ∈ m, e.2.ID = e.1) :
    (mapDelete m id).map Prod.snd
      = (m.map Prod.snd).filter (fun x => decide (some id ≠ some x.ID)) := by
  induction m with
  | nil => rfl
  | cons e rest ih =>
    obtain ⟨k0, v0⟩ := e
    have hv0 : v0.ID = k0 := hk (k0, v0) (List.mem_cons_self _ _)
    have hrest : ∀ e ∈ rest, e.2.ID = e.1 := fun e he => hk e (List.mem_cons_of_mem _ he)
    have ih' := ih hrest
    unfold mapDelete at ih' ⊢
    by_cases h' : k0 = id
    · subst h'
      simpa [List.filter_cons, hv0] using ih'
    · have h'' : ¬ id = k0 := fun h => h' h.symm
      simpa [List.filter_cons, hv0, h', h''] using ih'

theorem tracks_serve (s : Store) (c : Call) (live : List Todo) (j : Nat)
    (h : Tracks s live j)
    (hj : j + (createdOf (serve s c).2).toList.length ≤ 18446744073709551616) :
    Tracks (serve s c).1 (liveStep live c (serve s c).2)
      (j + (createdOf (serve s c).2).toList.length) := by
  rcases serve_cases s c with ⟨hs, hc, hh, hput⟩ | ⟨input, -, -, -, -, hs⟩ |
    ⟨id, rec, input, hmeth, -, hm, -, hs⟩ | ⟨id, rec, -, -, hid, hm, hs⟩
  · have hlive : liveStep live c (serve s c).2 = live := by
      cases hr : (serve s c).2 with
      | json code data =>
        cases data with
        | status v => rfl
        | list l => rfl
        | todo t =>
          have hcode : code ≠ 201 := by
            intro hcode
            rw [hr, hcode] at hc
            simp [createdOf] at hc
          have hmeth := hput code t hr
          simp [liveStep, hcode, hmeth]
      | error code msg => rfl
      | header code => exact absurd hr (hh code)
    rw [hlive, hc, hs]
    simpa using h
  · rw [hs] at hj ⊢
    simp only [createdOf, if_true, Option.toList, List.length_singleton] at hj ⊢
    have hfresh : mapGet s.todos s.nextID = none := by
      rw [mapGet_eq_none_iff]
      intro e he
      obtain ⟨i, hi1, hi2, hik⟩ := h.keys e he
      rw [hik, h.next]
      unfold wrapInt
      omega
    refine ⟨?_, ?_, ?_, ?_, ?_⟩
    · show (mapSet s.todos s.nextID _).map Prod.snd = _
      rw [mapSet_fresh _ _ _ hfresh]
      simp [liveStep, h.vals]
    · intro e he
      rcases mem_mapSet _ _ _ _ he with he | he
      · exact h.keyed e he
      · rw [he]
    · exact nodupKeys_mapSet _ _ _ h.nodup
    · intro e he
      rcases mem_mapSet _ _ _ _ he with he | he
      · obtain ⟨i, hi1, hi2, hik⟩ := h.keys e he
        exact ⟨i, hi1, by omega, hik⟩
      · refine ⟨j + 1, by omega, le_refl _, ?_⟩
        rw [he]
        show s.nextID = _
        rw [h.next]
        congr 1
        push_cast
        ring
    · show wrapInt (s.nextID + 1) = _
      rw [h.next, wrapInt_wrapInt_add]
      congr 1
  · rw [hs]
    simp only [createdOf]
    have hpid : (applyPatch rec input).ID = id := by
      rw [applyPatch_ID]
      exact h.keyed _ (mem_of_mapGet _ _ _ hm)
    have h200 : (200 : Nat) ≠ 201 := by decide
    refine ⟨?_, ?_, ?_, ?_, ?_⟩
    · show (mapSet s.todos id _).map Prod.snd = _
      rw [mapSet_values _ _ rec _ h.keyed h.nodup hm, h.vals]
      simp [liveStep, hmeth, hpid]
    · intro e he
      rcases mem_mapSet _ _ _ _ he with he | he
      · exact h.keyed e he
      · rw [he]
        exact hpid
    · exact nodupKeys_mapSet _ _ _ h.nodup
    · intro e he
      rcases mem_mapSet _ _ _ _ he with he | he
      · simpa using h.keys e he
      · rw [he]
        simpa using h.keys _ (mem_of_mapGet _ _ _ hm)
    · simpa using h.next
  · rw [hs]
    simp only [createdOf]
    refine ⟨?_, ?_, ?_, ?_, ?_⟩
    · show (mapDelete s.todos id).map Prod.snd = _
      rw [mapDelete_values _ _ h.keyed, h.vals]
      simp [liveStep, hid]
    · intro e he
      exact h.keyed e ((mem_mapDelete _ _ _).1 he).1
    · exact nodupKeys_mapDelete _ _ h.nodup
    · intro e he
      simpa using h.keys e ((mem_mapDelete _ _ _).1 he).1
    · simpa using h.next

theorem tracks_exec (cs : List Call) : ∀ (s : Store) (live : List Todo) (j : Nat),
    Tracks s live j →
    j + (created (responses s cs)).length ≤ 18446744073709551616 →
    Tracks (exec s cs) (liveFrom live (exchanges s cs))
      (j + (created (responses s cs)).length) := by
  induction cs with
  | nil =>
    intro s live j h _
    simpa [exec, exchanges, responses, created, liveFrom] using h
  | cons c cs ih =>
    intro s live j h hj
    rw [created_cons, List.length_append] at hj
    have hstep := tracks_serve s c live j h (by omega)
    have hrec := ih _ _ _ hstep (by omega)
    rw [created_cons, List.length_append, ← Nat.add_assoc, exchanges_cons]
    exact hrec

theorem tracks_init : Tracks initStore [] 0 := by
  refine ⟨rfl, keyedByID_init, by simp [initStore], ?_, by decide⟩
  intro e he
  simp [initStore] at he

theorem mapGet_of_mem (m : List (Int × Todo)) (k : Int) (v : Todo)
    (hn : (m.map Prod.fst).Nodup) (h : (k, v) ∈ m) : mapGet m k = some v := by
  induction m with
  | nil => simp at h
  | cons e rest ih =>
    obtain ⟨k0, v0⟩ := e
    rw [List.map_cons, List.nodup_cons] at hn
    rcases List.mem_cons.1 h with h | h
    · cases h
      simp [mapGet]
    · have hne : k0 ≠ k := by
        intro hk
        apply hn.1
        have hmem : (k, v).1 ∈ rest.map Prod.fst := List.mem_map_of_mem Prod.fst h
        rw [hk]
        exact hmem
      simp [mapGet, hne, ih hn.2 h]

theorem values_ids (s : Store) (h : KeyedByID s) :
    (s.todos.map Prod.snd).map Todo.ID = s.todos.map Prod.fst := by
  rw [List.map_map]
  apply List.map_congr_left
  intro e he
  exact h e he

theorem live_mem_replicate (title : String) (now : Time) (h : trimSpace title ≠ "")
    (r : Todo) (n : Nat) : ∀ (s : Store) (live : List Todo), r ∈ live →
    r ∈ liveFrom live (exchanges s (List.replicate n (postCall title now))) := by
  induction n with
  | zero =>
    intro s live hr
    exact hr
  | succ n ih =>
    intro s live hr
    rw [List.replicate_succ, exchanges_cons, serve_postCall s title now h]
    apply ih
    simp [liveStep, hr]

theorem live_after_wrap (m : Nat) :
    (⟨1, "a", false, 0⟩ : Todo)
      ∈ liveRecords (exchanges initStore (postCall "a" 0 :: List.replicate m (postCall "a" 1))) := by
  have ha : trimSpace "a" ≠ "" := by decide
  unfold liveRecords
  rw [exchanges_cons, serve_postCall initStore "a" 0 ha]
  apply live_mem_replicate "a" 1 ha
  simp [liveStep, initStore]

theorem not_listed_of_lookup (seed : Nat) (s : Store) (hk : KeyedByID s)
    (hn : (s.todos.map Prod.fst).Nodup) (r r' : Todo) (hne : r ≠ r')
    (hl : mapGet s.todos r.ID = some r') : r ∉ listing seed s := by
  intro hmem
  have hv : r ∈ s.todos.map Prod.snd := (listing_perm seed s).mem_iff.1 hmem
  obtain ⟨e, he, her⟩ := List.mem_map.1 hv
  obtain ⟨k, v⟩ := e
  simp only at her
  subst her
  have hkey : v.ID = k := hk _ he
  subst hkey
  have := mapGet_of_mem _ _ _ hn he
  rw [hl] at this
  cases this
  exact hne rfl

/-- C2, as stated, fails on the 64-bit counter: the record returned by the
first POST is never deleted, yet after 2^64 further successful POSTs the list
of GET /todos does not contain it (the POST that was given id 1 again took
its place). -/
theorem list_complete_counterexample :
    (serve initStore (postCall "a" 0)).2 = Response.json 201 (Data.todo ⟨1, "a", false, 0⟩) ∧
    (⟨1, "a", false, 0⟩ : Todo) ∈ liveRecords (exchanges initStore
      (postCall "a" 0 :: List.replicate 18446744073709551616 (postCall "a" 1))) ∧
    (serve (exec initStore
        (postCall "a" 0 :: List.replicate 18446744073709551616 (postCall "a" 1)))
      (getCall "/todos" 0)).2
      = Response.json 200 (Data.list (Slice.mk (listing 0 (exec initStore
          (postCall "a" 0 :: List.replicate 18446744073709551616 (postCall "a" 1)))))) ∧
    (⟨1, "a", false, 0⟩ : Todo) ∉ listing 0 (exec initStore
      (postCall "a" 0 :: List.replicate 18446744073709551616 (postCall "a" 1))) := by
  have hget : ∀ s : Store, (serve s (getCall "/todos" 0)).2
      = Response.json 200 (Data.list (Slice.mk (listing 0 s))) := by
    intro s
    have := serve_list s ⟨none, none⟩ 0 0
    exact congrArg Prod.snd this
  exact ⟨by decide, live_after_wrap _, hget _,
    not_listed_of_lookup 0 _ (keyedByID_exec _ _ keyedByID_init)
      (nodupKeys_exec _ _ (by simp [initStore])) ⟨1, "a", false, 0⟩ ⟨1, "a", false, 1⟩
      (by decide)
      (lookup_after_wrap 18446744073709551616 18446744073709551615 (by norm_num)
        (by norm_num [wrapInt]))⟩

/-- C2, amended: in every state reached from the initial one GET /todos
answers 200 with a list that holds exactly the records of the store, one per
key, none twice, in an order of the runtime's choosing, a non-nil empty list
for the empty store, and leaves the store and next-id as they are; when at
most 2^64 POSTs have succeeded this list is, as a multiset, the records
created by a successful POST and not since removed by a successful DELETE,
each in its latest-updated form. -/
theorem list_complete (cs : List Call) (b : Body) (now : Time) (seed : Nat) :
    serve (exec initStore cs) ⟨⟨"GET", "/todos", b⟩, now, seed⟩
      = (exec initStore cs,
          Response.json 200 (Data.list (Slice.mk (listing seed (exec initStore cs))))) ∧
    ((created (responses initStore cs)).length ≤ 18446744073709551616 →
      (listing seed (exec initStore cs)).Perm (liveRecords (exchanges initStore cs))) ∧
    (listing seed (exec initStore cs)).Perm ((exec initStore cs).todos.map Prod.snd) ∧
    ((listing seed (exec initStore cs)).map Todo.ID).Perm
      ((exec initStore cs).todos.map Prod.fst) ∧
    ((exec initStore cs).todos.map Prod.fst).Nodup ∧
    (listing seed (exec initStore cs)).Nodup ∧
    ((exec initStore cs).todos = [] →
      (serve (exec initStore cs) ⟨⟨"GET", "/todos", b⟩, now, seed⟩).2
        = Response.json 200 (Data.list (Slice.mk []))) ∧
    (serve (exec initStore cs) ⟨⟨"GET", "/todos", b⟩, now, seed⟩).2
      ≠ Response.json 200 (Data.list Slice.nil) := by
  have hk : KeyedByID (exec initStore cs) := keyedByID_exec _ _ keyedByID_init
  have hn : ((exec initStore cs).todos.map Prod.fst).Nodup :=
    nodupKeys_exec _ _ (by simp [initStore])
  have hp := listing_perm seed (exec initStore cs)
  have hids : ((listing seed (exec initStore cs)).map Todo.ID).Perm
      ((exec initStore cs).todos.map Prod.fst) := by
    rw [← values_ids _ hk]
    exact hp.map _
  refine ⟨serve_list _ b now seed, ?_, hp, hids, hn, ?_, ?_, ?_⟩
  · intro hfew
    have ht := tracks_exec cs initStore [] 0 tracks_init (by simpa using hfew)
    have hv := ht.vals
    unfold liveRecords
    rw [← hv]
    exact hp
  · exact List.Nodup.of_map Todo.ID (hids.nodup_iff.2 hn)
  · intro hempty
    rw [serve_list]
    simp [listing, mapRange, hempty, rangeFrom]
  · rw [serve_list]
    simp

/-- An instance of C2, amended: the list after three POSTs, a PUT and a
DELETE, traversed in the order of seed 1. -/
theorem list_complete_witness :
    (listing 1 (exec initStore
        [postCall "a" 1, postCall "b" 2, putCall "1" ⟨none, some true⟩, deleteCall "2",
          postCall "c" 3])).Perm
      (liveRecords (exchanges initStore
        [postCall "a" 1, postCall "b" 2, putCall "1" ⟨none, some true⟩, deleteCall "2",
          postCall "c" 3])) ∧
    listing 1 (exec initStore
        [postCall "a" 1, postCall "b" 2, putCall "1" ⟨none, some true⟩, deleteCall "2",
          postCall "c" 3]) = [⟨3, "c", false, 3⟩, ⟨1, "a", true, 1⟩] ∧
    liveRecords (exchanges initStore
        [postCall "a" 1, postCall "b" 2, putCall "1" ⟨none, some true⟩, deleteCall "2",
          postCall "c" 3]) = [⟨1, "a", true, 1⟩, ⟨3, "c", false, 3⟩] :=
  ⟨(list_complete
      [postCall "a" 1, postCall "b" 2, putCall "1" ⟨none, some true⟩, deleteCall "2",
        postCall "c" 3] ⟨none, none⟩ 0 1).2.1 (by decide), by decide, by decide⟩

end TodoServer
